import Mathlib

/-!
# termsnake: the game-state engine of `main.go`

A shallow embedding of the board, the snake chain, the field lookup, the
key-press handler, the round transition `newRound` and the food respawn
`newFood`, followed by the properties proved about them.

Conventions of the embedding

* Go `int` and `uint` are 64 bits wide. Coordinates are `Int`, counters and
  board dimensions are `Nat`; every `++`, `--` and `- 1` of the source is
  followed by the wrap of its type, and `int(u)` reads the bits of `u` as an `int`.
* A `*snakeField` is `nil` or a node with a position and a `nextField`; it is
  embedded as the list of the positions met from that node on (`[]` is `nil`).
  Chains are finite and acyclic.
* `board [][]field` is a list of columns, indexed `[x][y]`; an index outside a
  slice is the run-time panic `Fault.indexOutOfRange`.
* The random source is the list of the points `randPoint2d` returns, in order.
  A call that needs a point when the list is exhausted ends in
  `Fault.outOfDraws`: the respawn loop did not return on these draws.
* `appCtxCancel()` sets the flag `cancelled`.
-/

namespace Termsnake

/-! ## Machine integers -/

/-- Two's-complement wrap of a mathematical integer into the range of Go `int`. -/
@[irreducible]
def wrapInt (z : Int) : Int := (z + 9223372036854775808) % 18446744073709551616 - 9223372036854775808

/-- Wrap of a natural number into the range of Go `uint` and `uint64`. -/
@[irreducible]
def wrapUint (n : Nat) : Nat := n % 18446744073709551616

/-- The conversion `int(u)` of a `uint` value: the same 64 bits read as two's
complement, so the upper half of the `uint` range becomes negative. -/
@[irreducible]
def uintToInt (n : Nat) : Int :=
  if n % 18446744073709551616 < 9223372036854775808 then ((n % 18446744073709551616 : Nat) : Int)
  else ((n % 18446744073709551616 : Nat) : Int) - 18446744073709551616

/-- Subtraction of two `uint` values. -/
@[irreducible]
def uintSub (a b : Nat) : Nat :=
  (a % 18446744073709551616 + (18446744073709551616 - b % 18446744073709551616)) % 18446744073709551616

/-! ## Data model -/

/-- The type `field` is `int8`; only equality is ever used on it. -/
abbrev field := Int

/-- The constant `fieldEmpty = field(iota)`, the zero value. -/
def fieldEmpty : field := 0

/-- The constant `fieldSnake`. -/
def fieldSnake : field := 1

/-- The constant `fieldFood`. -/
def fieldFood : field := 2

/-- The type `userAction` is `int8`; only equality is ever used on it. -/
abbrev userAction := Int

/-- The constant `userActionUp = userAction(iota)`, the zero value. -/
def userActionUp : userAction := 0

/-- The constant `userActionLeft`. -/
def userActionLeft : userAction := 1

/-- The constant `userActionRight`. -/
def userActionRight : userAction := 2

/-- The constant `userActionDown`. -/
def userActionDown : userAction := 3

/-- The struct `point2d`. -/
structure point2d where
  x : Int
  y : Int
deriving DecidableEq, Repr

/-- The struct `gameState`; `snakeHead` is the chain reached from the pointer
of that name and `cancelled` records that `appCtxCancel` has been called. -/
structure gameState where
  board : List (List field)
  boardWidth : Nat
  boardHeight : Nat
  round : Nat
  score : Nat
  desiredSnakeLen : Nat
  snakeHead : List point2d
  userAction : userAction
  cancelled : Bool
deriving DecidableEq, Repr

/-- Ways in which a call does not return normally. -/
inductive Fault where
  | nilDereference
  | indexOutOfRange
  | randPanic
  | fatal
  | outOfDraws
deriving DecidableEq, Repr

deriving instance DecidableEq for Except

/-- The method `point2d.isValid`. -/
def point2d.isValid (c : point2d) (state : gameState) : Bool :=
  decide (c.x < uintToInt state.boardWidth) && decide (c.y < uintToInt state.boardHeight)
    && decide (c.x ≥ 0) && decide (c.y ≥ 0)

/-- The method `point2d.isEqual`. -/
def point2d.isEqual (c c2 : point2d) : Bool :=
  decide (c.x = c2.x) && decide (c.y = c2.y)

/-! ## The snake chain -/

/-- The method `snakeField.last` on the node `pos, nextField`: the position
stored in the last node of the chain. -/
def last (pos : point2d) : List point2d → point2d
  | [] => pos
  | n :: rest => last n rest

/-- The method `snakeField.beforeLast` on the node `pos, nextField`. The node
returned is given by its index in the chain counted from the receiver; `none`
is the `nil` result. -/
def beforeLast (_pos : point2d) : List point2d → Option Nat
  | [] => none
  | n :: rest =>
    match rest with
    | [] => some 0
    | _ :: _ => (beforeLast n rest).map (fun i => i + 1)

/-- The loop of `snakeField.count`: `current` walks the chain, `i` is a `uint`. -/
def countLoop : List point2d → Nat → Nat
  | [], i => i
  | _ :: rest, i => countLoop rest (wrapUint (i + 1))

/-- The method `snakeField.count` on the node `pos, nextField`. -/
def count (pos : point2d) (nextField : List point2d) : Nat :=
  countLoop (pos :: nextField) 0

/-! ## Board access -/

/-- The read `board[p.x][p.y]`; `none` is an index out of range. -/
def boardGet (board : List (List field)) (p : point2d) : Option field :=
  if p.x < 0 ∨ p.y < 0 then none
  else
    match board[p.x.toNat]? with
    | none => none
    | some col => col[p.y.toNat]?

/-- The write `board[p.x][p.y] = v`; `none` is an index out of range. -/
def boardSet (board : List (List field)) (p : point2d) (v : field) : Option (List (List field)) :=
  if p.x < 0 ∨ p.y < 0 then none
  else
    match board[p.x.toNat]? with
    | none => none
    | some col =>
      if p.y.toNat < col.length then some (board.set p.x.toNat (col.set p.y.toNat v))
      else none

/-- The loop of `getField` over the chain: does some node hold `p`. -/
def snakeScan (p : point2d) : List point2d → Bool
  | [] => false
  | c :: rest => if c.isEqual p then true else snakeScan p rest

/-- The method `gameState.getField`. -/
def getField (gs : gameState) (p : point2d) : Except Fault (field × Bool) :=
  if !p.isValid gs then .ok (0, false)
  else if snakeScan p gs.snakeHead then .ok (fieldSnake, true)
  else
    match boardGet gs.board p with
    | none => .error .indexOutOfRange
    | some f => .ok (f, true)

/-! ## Food respawn -/

/-- The method `gameState.newFood`. Each call takes one point from `draws` as
the result of `randPoint2d`, which panics when a dimension is not positive as
an `int`; `log.Fatalf` ends the process. -/
def newFood (gs : gameState) : List point2d → Except Fault (gameState × List point2d)
  | [] =>
    if uintToInt gs.boardWidth ≤ 0 ∨ uintToInt gs.boardHeight ≤ 0 then .error .randPanic
    else .error .outOfDraws
  | p :: rest =>
    if uintToInt gs.boardWidth ≤ 0 ∨ uintToInt gs.boardHeight ≤ 0 then .error .randPanic
    else
      match getField gs p with
      | .error e => .error e
      | .ok (f, true) =>
        if f = fieldSnake then newFood gs rest
        else
          match boardSet gs.board p fieldFood with
          | none => .error .indexOutOfRange
          | some b => .ok ({ gs with board := b }, rest)
      | .ok (_, false) => .error .fatal

/-! ## The round transition -/

/-- The `switch gs.userAction` of `newRound`: the position of `newSnakeHead`
after the move and the wrap, from the position `pos` of the current head. -/
def movedHead (gs : gameState) (pos : point2d) : point2d :=
  if gs.userAction = userActionUp then
    let y := wrapInt (pos.y - 1)
    { pos with y := if y = -1 then wrapInt (uintToInt gs.boardHeight - 1) else y }
  else if gs.userAction = userActionLeft then
    let x := wrapInt (pos.x - 1)
    { pos with x := if x = -1 then wrapInt (uintToInt gs.boardWidth - 1) else x }
  else if gs.userAction = userActionRight then
    let x := wrapInt (pos.x + 1)
    { pos with x := if x = uintToInt gs.boardWidth then 0 else x }
  else if gs.userAction = userActionDown then
    let y := wrapInt (pos.y + 1)
    { pos with y := if y = uintToInt gs.boardHeight then 0 else y }
  else pos

/-- The part of `newRound` after the commit `gs.snakeHead = &newSnakeHead`:
food pick-up and respawn. -/
def pickUp (gs : gameState) (head : point2d) (draws : List point2d) :
    Except Fault (gameState × List point2d) :=
  match boardGet gs.board head with
  | none => .error .indexOutOfRange
  | some c =>
    if c = fieldFood then
      match boardSet gs.board head fieldEmpty with
      | none => .error .indexOutOfRange
      | some b =>
        newFood { gs with board := b, score := wrapUint (gs.score + 1),
                          desiredSnakeLen := wrapUint (gs.desiredSnakeLen + 1) } draws
    else .ok (gs, draws)

/-- The last statement of `newRound`: the tail moves forward when the chain is
longer than `desiredSnakeLen`. -/
def moveTail (gs : gameState) : Except Fault gameState :=
  match gs.snakeHead with
  | [] => .error .nilDereference
  | pos :: nextField =>
    if count pos nextField > gs.desiredSnakeLen then
      match beforeLast pos nextField with
      | none => .error .nilDereference
      | some i => .ok { gs with snakeHead := (pos :: nextField).take (i + 1) }
    else .ok gs

/-- The statements of `newRound` from the commit `gs.snakeHead = &newSnakeHead`
on: the new node points to the old chain, then food pick-up and tail move. -/
def commitMove (gs : gameState) (newPos : point2d) (draws : List point2d) :
    Except Fault (gameState × List point2d) :=
  match pickUp { gs with snakeHead := newPos :: gs.snakeHead } newPos draws with
  | .error e => .error e
  | .ok (gs2, draws2) =>
    match moveTail gs2 with
    | .error e => .error e
    | .ok gs3 => .ok (gs3, draws2)

/-- The method `gameState.newRound`. -/
def newRound (gs0 : gameState) (draws : List point2d) : Except Fault (gameState × List point2d) :=
  let gs := { gs0 with round := wrapUint (gs0.round + 1) }
  match gs.snakeHead with
  | [] => .error .nilDereference
  | pos :: _ =>
    let newPos := movedHead gs pos
    if !newPos.isValid gs then .ok (gs, draws)
    else
      match getField gs newPos with
      | .error e => .error e
      | .ok (f, _) =>
        if f = fieldSnake then .ok ({ gs with cancelled := true }, draws)
        else commitMove gs newPos draws

/-- The main loop of `main` for `n` ticks of the ticker, no key event arriving. -/
def rounds : Nat → gameState → List point2d → Except Fault (gameState × List point2d)
  | 0, gs, draws => .ok (gs, draws)
  | n + 1, gs, draws =>
    match newRound gs draws with
    | .error e => .error e
    | .ok (gs1, draws1) => rounds n gs1 draws1

/-! ## The key-press listener -/

/-- The keys of `termbox` the listener distinguishes. -/
inductive termboxKey where
  | KeyArrowUp
  | KeyArrowLeft
  | KeyArrowRight
  | KeyArrowDown
  | KeyCtrlC
  | KeyCtrlZ
  | KeyCtrlX
  | KeyOther
deriving DecidableEq, Repr

/-- The events of `termbox.PollEvent` the listener distinguishes. -/
inductive termboxEvent where
  | EventKey (key : termboxKey)
  | EventInterrupt
  | EventError
  | EventOther
deriving DecidableEq, Repr

/-- What the listener does after an event. -/
inductive listenerStatus where
  | polling
  | returned
  | exited
deriving DecidableEq, Repr

/-- The `switch event.Type` of `keyPressListener` for one polled event. -/
def onEvent (gs : gameState) : termboxEvent → gameState × listenerStatus
  | .EventKey .KeyArrowUp =>
    (if gs.userAction ≠ userActionDown then { gs with userAction := userActionUp } else gs, .polling)
  | .EventKey .KeyArrowLeft =>
    (if gs.userAction ≠ userActionRight then { gs with userAction := userActionLeft } else gs, .polling)
  | .EventKey .KeyArrowRight =>
    (if gs.userAction ≠ userActionLeft then { gs with userAction := userActionRight } else gs, .polling)
  | .EventKey .KeyArrowDown =>
    (if gs.userAction ≠ userActionUp then { gs with userAction := userActionDown } else gs, .polling)
  | .EventKey .KeyCtrlC => (gs, .returned)
  | .EventKey .KeyCtrlZ => (gs, .returned)
  | .EventKey .KeyCtrlX => (gs, .returned)
  | .EventKey .KeyOther => (gs, .polling)
  | .EventInterrupt => (gs, .returned)
  | .EventError => (gs, .exited)
  | .EventOther => (gs, .polling)

/-- The method `gameState.keyPressListener` run from the top of its loop on the events
it polls, no round of `main` running in between; the deferred `appCtxCancel` runs when
the listener returns. An event the listener was already blocked on when a round changed
the state is handled by `onEvent` in the changed state, without a new test of
`appCtx.Done()`. -/
def keyPressListener (gs : gameState) : List termboxEvent → gameState × listenerStatus
  | [] => if gs.cancelled then ({ gs with cancelled := true }, .returned) else (gs, .polling)
  | ev :: rest =>
    if gs.cancelled then ({ gs with cancelled := true }, .returned)
    else
      match onEvent gs ev with
      | (gs1, .polling) => keyPressListener gs1 rest
      | (gs1, .returned) => ({ gs1 with cancelled := true }, .returned)
      | (gs1, .exited) => (gs1, .exited)

/-! ## Start of the game -/

/-- The zero value `gameState{}`. -/
def zeroState : gameState :=
  { board := [], boardWidth := 0, boardHeight := 0, round := 0, score := 0,
    desiredSnakeLen := 0, snakeHead := [], userAction := 0, cancelled := false }

/-- The method `gameState.init`. -/
def init (gs : gameState) (boardWidth boardHeight : Nat) : gameState :=
  { gs with board := List.replicate boardWidth (List.replicate boardHeight 0),
            boardWidth := boardWidth, boardHeight := boardHeight, cancelled := false }

/-- The statements of `main` that create the snake on the state `menu` returned. -/
def createSnake (state : gameState) : gameState :=
  let body2 : point2d :=
    ⟨uintToInt (state.boardWidth / 2), uintToInt (wrapUint (state.boardHeight / 2 + 1))⟩
  let body1 : point2d :=
    ⟨uintToInt (state.boardWidth / 2), uintToInt (state.boardHeight / 2)⟩
  let head : point2d :=
    ⟨uintToInt (state.boardWidth / 2), uintToInt (uintSub (state.boardHeight / 2) 1)⟩
  { state with snakeHead := [head, body1, body2], desiredSnakeLen := 3 }

/-- The state of `main` when the listener is started, for the dimensions
entered in `menu`. -/
def mainState (boardWidth boardHeight : Nat) : gameState :=
  createSnake (init zeroState boardWidth boardHeight)

/-! ## Specification vocabulary -/

/-- The point lies on the board of the mathematical dimensions. -/
def inBounds (gs : gameState) (p : point2d) : Prop :=
  0 ≤ p.x ∧ p.x < (gs.boardWidth : Int) ∧ 0 ≤ p.y ∧ p.y < (gs.boardHeight : Int)

instance (gs : gameState) (p : point2d) : Decidable (inBounds gs p) := by
  unfold inBounds
  infer_instance

/-- Both dimensions are lengths of Go slices, hence values of `int`. -/
def dimsFit (gs : gameState) : Prop :=
  gs.boardWidth < 9223372036854775808 ∧ gs.boardHeight < 9223372036854775808

instance (gs : gameState) : Decidable (dimsFit gs) := by
  unfold dimsFit
  infer_instance

/-- The exact reverse of a direction, from the pairs Up/Down and Left/Right. -/
def isReverse (d k : userAction) : Bool :=
  (d == userActionUp && k == userActionDown) || (d == userActionDown && k == userActionUp)
    || (d == userActionLeft && k == userActionRight) || (d == userActionRight && k == userActionLeft)

/-- The direction an arrow key stands for. -/
def arrowDirection : termboxKey → Option userAction
  | .KeyArrowUp => some userActionUp
  | .KeyArrowLeft => some userActionLeft
  | .KeyArrowRight => some userActionRight
  | .KeyArrowDown => some userActionDown
  | _ => none

/-- The chain after the last statement of `newRound`, for the chain and the
`desiredSnakeLen` before it: one node shorter when `count` exceeds the target. -/
def tailMoved (chain : List point2d) (desiredSnakeLen : Nat) : List point2d :=
  if chain.length % 18446744073709551616 > desiredSnakeLen then chain.dropLast else chain

/-- The two states differ at most in `userAction` and the termination flag,
the fields the listener writes. -/
def sameGame (gs gs1 : gameState) : Prop :=
  gs1.board = gs.board ∧ gs1.boardWidth = gs.boardWidth ∧ gs1.boardHeight = gs.boardHeight ∧
  gs1.round = gs.round ∧ gs1.score = gs.score ∧ gs1.desiredSnakeLen = gs.desiredSnakeLen ∧
  gs1.snakeHead = gs.snakeHead

/-- The slices of the board have the lengths `init` gave them: `boardWidth`
columns of `boardHeight` cells. -/
def boardShape (gs : gameState) : Prop :=
  gs.board.length = gs.boardWidth ∧ ∀ col ∈ gs.board, col.length = gs.boardHeight

instance (gs : gameState) : Decidable (boardShape gs) := by
  unfold boardShape
  infer_instance

/-- Every cell of the board stores a state of the grid, `fieldEmpty` or
`fieldFood`: the values `init` and the game ever write. -/
def gridCells (board : List (List field)) : Prop :=
  ∀ col ∈ board, ∀ c ∈ col, c = fieldEmpty ∨ c = fieldFood

instance (board : List (List field)) : Decidable (gridCells board) := by
  unfold gridCells
  infer_instance

/-- No cell that stores `fieldFood` is the position of a node of the chain. -/
def foodFreeOfSnake (gs : gameState) : Prop :=
  ∀ p ∈ gs.snakeHead, boardGet gs.board p ≠ some fieldFood

instance (gs : gameState) : Decidable (foodFreeOfSnake gs) := by
  unfold foodFreeOfSnake
  infer_instance

/-- Number of cells of the board that hold `fieldFood`. -/
def foodCount (board : List (List field)) : Nat :=
  (board.map (fun col => col.count fieldFood)).sum

/-- States the running game passes through from `gs0`, the two goroutines interleaved
in any order. `listen`: the listener runs its loop from the top on the events polled
meanwhile. `pending`: the listener handles the event it was blocked on in `PollEvent`;
the test of `appCtx.Done()` precedes the blocking call, so this happens in whatever state
the rounds have produced by then, a cancelled one included. `tick`: the `select` of `main`
runs `newRound`, on any draws of the random source, in any state, a cancelled one
included. -/
inductive Reach (gs0 : gameState) : gameState → Prop where
  | start : Reach gs0 gs0
  | listen (gs : gameState) (events : List termboxEvent) :
      Reach gs0 gs → Reach gs0 (keyPressListener gs events).1
  | pending (gs : gameState) (ev : termboxEvent) :
      Reach gs0 gs → Reach gs0 (onEvent gs ev).1
  | tick (gs gs1 : gameState) (draws draws1 : List point2d) :
      Reach gs0 gs → newRound gs draws = .ok (gs1, draws1) → Reach gs0 gs1

/-! ## Concrete states used as examples -/

/-- A board of width 10 and height 8 with the head of a one-node chain at `head`. -/
def board10x8 (head : point2d) (a : userAction) : gameState :=
  { init zeroState 10 8 with snakeHead := [head], desiredSnakeLen := 1, userAction := a }

/-- A 10x10 board on which the head `(5,4)` moving Left meets the last node `(4,4)`. -/
def bitesTail : gameState :=
  { init zeroState 10 10 with
    snakeHead := [⟨5, 4⟩, ⟨5, 5⟩, ⟨4, 5⟩, ⟨4, 4⟩], desiredSnakeLen := 4,
    userAction := userActionLeft, round := 7, score := 1 }

/-- The state with `fieldFood` written to the cell `(x, y)` of the board. -/
def placeFood (gs : gameState) (x y : Nat) : gameState :=
  { gs with board := gs.board.set x ((gs.board.getD x []).set y fieldFood) }

/-- The 10x10 start of `main` with `fieldFood` stored under the head `(5,4)`. -/
def foodUnderSnake : gameState := placeFood (mainState 10 10) 5 4

/-- A 2x2 board on which the chain leaves the single cell `(1,0)` free. -/
def oneFree : gameState :=
  { init zeroState 2 2 with snakeHead := [⟨0, 0⟩, ⟨0, 1⟩, ⟨1, 1⟩], desiredSnakeLen := 3 }

/-- The 10x10 start of `main` with the food `k` cells straight above the head `(5,4)`. -/
def foodAbove (k : Nat) : gameState := placeFood (mainState 10 10) 5 (4 - k)

/-- The state after the head of `foodAbove k` has eaten in round `k`, the respawn
having drawn `(0,0)`. -/
def hasEaten (k : Nat) : gameState :=
  { placeFood (mainState 10 10) 0 0 with
    round := k, score := 1, desiredSnakeLen := 4,
    snakeHead := [⟨5, 4 - (k : Int)⟩, ⟨5, 5 - (k : Int)⟩, ⟨5, 6 - (k : Int)⟩, ⟨5, 7 - (k : Int)⟩] }

/-- The 10x10 start of `main` with its first food at `(5,3)`, after the listener
has handled the arrow keys Left and Down, in this order, before a tick. -/
def leftThenDown : gameState :=
  (keyPressListener (foodAbove 1)
    [.EventKey .KeyArrowLeft, .EventKey .KeyArrowDown]).1

/-- A 10x10 board with a chain whose head `(20,3)` lies outside, direction Up. -/
def headOutside : gameState :=
  { init zeroState 10 10 with
    snakeHead := [⟨20, 3⟩, ⟨20, 4⟩], desiredSnakeLen := 2, round := 5, score := 1 }

/-- The state after one round with direction Up from `foodAbove 2`: the head has
moved to the empty cell `(5,3)` and the last node `(5,6)` is gone. -/
def movedUp : gameState :=
  { foodAbove 2 with round := 1, snakeHead := [⟨5, 3⟩, ⟨5, 4⟩, ⟨5, 5⟩] }

/-- The state `newRound` returns on `leftThenDown`: the prospective head `(5,5)` is the
second node, so the round has set the flag. -/
def collided : gameState :=
  { foodAbove 1 with userAction := userActionDown, round := 1, cancelled := true }

/-- The listener, blocked in `PollEvent` since before the collision, handles the arrow
key Left in the cancelled state `collided`. -/
def keyAfterCancel : gameState := (onEvent collided (.EventKey .KeyArrowLeft)).1

/-- The state after `main` has run one more round from `keyAfterCancel`: the head has
moved left to `(4,4)`. -/
def roundAfterCancel : gameState :=
  { foodAbove 1 with userAction := userActionLeft, round := 2, cancelled := true,
                     snakeHead := [⟨4, 4⟩, ⟨5, 4⟩, ⟨5, 5⟩] }

/-! ## Machine-integer lemmas -/

lemma wrapInt_eq_self (z : Int) (h1 : -9223372036854775808 ≤ z) (h2 : z < 9223372036854775808) :
    wrapInt z = z := by
  unfold wrapInt
  omega

lemma uintToInt_eq_cast (n : Nat) (h : n < 9223372036854775808) : uintToInt n = (n : Int) := by
  unfold uintToInt
  rw [Nat.mod_eq_of_lt (by omega), if_pos h]

lemma uintToInt_lt (n : Nat) : uintToInt n < 9223372036854775808 := by
  unfold uintToInt
  split_ifs <;> omega

lemma wrapUint_eq_self (n : Nat) (h : n < 18446744073709551616) : wrapUint n = n := by
  unfold wrapUint
  omega

lemma isValid_iff (gs : gameState) (p : point2d) :
    p.isValid gs = true ↔
      p.x < uintToInt gs.boardWidth ∧ p.y < uintToInt gs.boardHeight ∧ 0 ≤ p.x ∧ 0 ≤ p.y := by
  simp [point2d.isValid, and_assoc]

lemma isValid_iff_inBounds (gs : gameState) (hd : dimsFit gs) (p : point2d) :
    p.isValid gs = true ↔ inBounds gs p := by
  rw [isValid_iff, uintToInt_eq_cast _ hd.1, uintToInt_eq_cast _ hd.2]
  unfold inBounds
  tauto

lemma isEqual_iff (c c2 : point2d) : c.isEqual c2 = true ↔ c = c2 := by
  cases c
  cases c2
  simp [point2d.isEqual]

lemma snakeScan_iff (p : point2d) (l : List point2d) : snakeScan p l = true ↔ p ∈ l := by
  induction l with
  | nil => simp [snakeScan]
  | cons c rest ih =>
    rw [snakeScan, List.mem_cons]
    by_cases h : c.isEqual p = true
    · rw [if_pos h]
      have e := (isEqual_iff c p).1 h
      simp [e]
    · rw [if_neg h, ih]
      have hne : ¬ p = c := fun e => h ((isEqual_iff c p).2 e.symm)
      simp [hne]

/-! ## C1: wrap-around movement -/

lemma movedHead_up (gs : gameState) (pos : point2d) (ha : gs.userAction = userActionUp) :
    movedHead gs pos =
      ⟨pos.x, if wrapInt (pos.y - 1) = -1 then wrapInt (uintToInt gs.boardHeight - 1)
              else wrapInt (pos.y - 1)⟩ := by
  unfold movedHead
  rw [if_pos ha]

lemma movedHead_left (gs : gameState) (pos : point2d) (ha : gs.userAction = userActionLeft) :
    movedHead gs pos =
      ⟨if wrapInt (pos.x - 1) = -1 then wrapInt (uintToInt gs.boardWidth - 1)
       else wrapInt (pos.x - 1), pos.y⟩ := by
  unfold movedHead
  rw [if_neg (by rw [ha]; decide), if_pos ha]

lemma movedHead_right (gs : gameState) (pos : point2d) (ha : gs.userAction = userActionRight) :
    movedHead gs pos =
      ⟨if wrapInt (pos.x + 1) = uintToInt gs.boardWidth then 0 else wrapInt (pos.x + 1), pos.y⟩ := by
  unfold movedHead
  rw [if_neg (by rw [ha]; decide), if_neg (by rw [ha]; decide), if_pos ha]

lemma movedHead_down (gs : gameState) (pos : point2d) (ha : gs.userAction = userActionDown) :
    movedHead gs pos =
      ⟨pos.x, if wrapInt (pos.y + 1) = uintToInt gs.boardHeight then 0 else wrapInt (pos.y + 1)⟩ := by
  unfold movedHead
  rw [if_neg (by rw [ha]; decide), if_neg (by rw [ha]; decide), if_neg (by rw [ha]; decide),
    if_pos ha]

lemma movedHead_other (gs : gameState) (pos : point2d) (h0 : gs.userAction ≠ userActionUp)
    (h1 : gs.userAction ≠ userActionLeft) (h2 : gs.userAction ≠ userActionRight)
    (h3 : gs.userAction ≠ userActionDown) : movedHead gs pos = pos := by
  unfold movedHead
  rw [if_neg h0, if_neg h1, if_neg h2, if_neg h3]

/-- Stepping back from `c` on an axis of length `n`, as the source does it. -/
lemma dec_wrap (c : Int) (n : Nat) (hn : n < 9223372036854775808) (h0 : 0 ≤ c) (hc : c < (n : Int)) :
    (if wrapInt (c - 1) = -1 then wrapInt (uintToInt n - 1) else wrapInt (c - 1))
      = (c - 1) % (n : Int) := by
  rw [uintToInt_eq_cast _ hn, wrapInt_eq_self (c - 1) (by omega) (by omega),
    wrapInt_eq_self ((n : Int) - 1) (by omega) (by omega)]
  by_cases hz : c = 0
  · have e : c - 1 = -1 := by omega
    rw [if_pos e, e]
    have e2 : (-1 : Int) % (n : Int) = (-1 + (n : Int)) % (n : Int) := by rw [Int.add_emod_self]
    rw [e2, Int.emod_eq_of_lt (by omega) (by omega)]
    ring
  · have e : ¬ c - 1 = -1 := by omega
    rw [if_neg e]
    exact (Int.emod_eq_of_lt (by omega) (by omega)).symm

/-- Stepping forward from `c` on an axis of length `n`, as the source does it. -/
lemma inc_wrap (c : Int) (n : Nat) (hn : n < 9223372036854775808) (h0 : 0 ≤ c) (hc : c < (n : Int)) :
    (if wrapInt (c + 1) = uintToInt n then 0 else wrapInt (c + 1)) = (c + 1) % (n : Int) := by
  rw [uintToInt_eq_cast _ hn, wrapInt_eq_self (c + 1) (by omega) (by omega)]
  by_cases hz : c + 1 = (n : Int)
  · rw [if_pos hz, hz, Int.emod_self]
  · rw [if_neg hz]
    exact (Int.emod_eq_of_lt (by omega) (by omega)).symm

/-- C1. On a board whose dimensions are values of `int`, with the head at
`(x, y)`, `0 ≤ x < w`, `0 ≤ y < h`, the prospective head computed by `newRound`
is `(x, (y-1) mod h)` for Up, `(x, (y+1) mod h)` for Down, `((x-1) mod w, y)`
for Left and `((x+1) mod w, y)` for Right, with the non-negative remainder. -/
theorem movedHead_wraps (gs : gameState) (pos : point2d) (hd : dimsFit gs)
    (hp : inBounds gs pos) :
    (gs.userAction = userActionUp →
        movedHead gs pos = ⟨pos.x, (pos.y - 1) % (gs.boardHeight : Int)⟩) ∧
    (gs.userAction = userActionDown →
        movedHead gs pos = ⟨pos.x, (pos.y + 1) % (gs.boardHeight : Int)⟩) ∧
    (gs.userAction = userActionLeft →
        movedHead gs pos = ⟨(pos.x - 1) % (gs.boardWidth : Int), pos.y⟩) ∧
    (gs.userAction = userActionRight →
        movedHead gs pos = ⟨(pos.x + 1) % (gs.boardWidth : Int), pos.y⟩) := by
  obtain ⟨hx0, hxw, hy0, hyh⟩ := hp
  obtain ⟨hw, hh⟩ := hd
  refine ⟨fun ha => ?_, fun ha => ?_, fun ha => ?_, fun ha => ?_⟩
  · rw [movedHead_up gs pos ha, dec_wrap pos.y _ hh hy0 hyh]
  · rw [movedHead_down gs pos ha, inc_wrap pos.y _ hh hy0 hyh]
  · rw [movedHead_left gs pos ha, dec_wrap pos.x _ hw hx0 hxw]
  · rw [movedHead_right gs pos ha, inc_wrap pos.x _ hw hx0 hxw]

/-- C1, the two examples of the specification: on the 10x8 board the head
`(0,3)` moving Left goes to `(9,3)` and the head `(5,0)` moving Up goes to `(5,7)`. -/
theorem movedHead_wraps_witness :
    movedHead (board10x8 ⟨0, 3⟩ userActionLeft) ⟨0, 3⟩ = ⟨9, 3⟩ ∧
    movedHead (board10x8 ⟨5, 0⟩ userActionUp) ⟨5, 0⟩ = ⟨5, 7⟩ :=
  ⟨(movedHead_wraps (board10x8 ⟨0, 3⟩ userActionLeft) ⟨0, 3⟩ (by decide) (by decide)).2.2.1 rfl,
   (movedHead_wraps (board10x8 ⟨5, 0⟩ userActionUp) ⟨5, 0⟩ (by decide) (by decide)).1 rfl⟩

/-! ## C2: self-collision -/

lemma movedHead_isValid (gs : gameState) (pos : point2d) (hv : pos.isValid gs = true) :
    (movedHead gs pos).isValid gs = true := by
  rw [isValid_iff] at hv ⊢
  obtain ⟨hx, hy, hx0, hy0⟩ := hv
  have bw := uintToInt_lt gs.boardWidth
  have bh := uintToInt_lt gs.boardHeight
  by_cases h0 : gs.userAction = userActionUp
  · rw [movedHead_up gs pos h0]
    rw [wrapInt_eq_self (pos.y - 1) (by omega) (by omega),
      wrapInt_eq_self (uintToInt gs.boardHeight - 1) (by omega) (by omega)]
    dsimp only
    split_ifs <;> omega
  by_cases h1 : gs.userAction = userActionLeft
  · rw [movedHead_left gs pos h1]
    rw [wrapInt_eq_self (pos.x - 1) (by omega) (by omega),
      wrapInt_eq_self (uintToInt gs.boardWidth - 1) (by omega) (by omega)]
    dsimp only
    split_ifs <;> omega
  by_cases h2 : gs.userAction = userActionRight
  · rw [movedHead_right gs pos h2]
    rw [wrapInt_eq_self (pos.x + 1) (by omega) (by omega)]
    dsimp only
    split_ifs <;> omega
  by_cases h3 : gs.userAction = userActionDown
  · rw [movedHead_down gs pos h3]
    rw [wrapInt_eq_self (pos.y + 1) (by omega) (by omega)]
    dsimp only
    split_ifs <;> omega
  · rw [movedHead_other gs pos h0 h1 h2 h3]
    exact ⟨hx, hy, hx0, hy0⟩

lemma getField_of_mem (gs : gameState) (p : point2d) (hv : p.isValid gs = true)
    (hm : p ∈ gs.snakeHead) : getField gs p = .ok (fieldSnake, true) := by
  unfold getField
  rw [hv, (snakeScan_iff p gs.snakeHead).2 hm]
  rfl

lemma movedHead_congr (gs gs1 : gameState) (hw : gs.boardWidth = gs1.boardWidth)
    (hh : gs.boardHeight = gs1.boardHeight) (ha : gs.userAction = gs1.userAction) (pos : point2d) :
    movedHead gs pos = movedHead gs1 pos := by
  unfold movedHead
  rw [hw, hh, ha]

lemma isValid_congr (gs gs1 : gameState) (hw : gs.boardWidth = gs1.boardWidth)
    (hh : gs.boardHeight = gs1.boardHeight) (p : point2d) : p.isValid gs = p.isValid gs1 := by
  unfold point2d.isValid
  rw [hw, hh]

lemma getField_congr (gs gs1 : gameState) (hw : gs.boardWidth = gs1.boardWidth)
    (hh : gs.boardHeight = gs1.boardHeight) (hs : gs.snakeHead = gs1.snakeHead)
    (hb : gs.board = gs1.board) (p : point2d) : getField gs p = getField gs1 p := by
  unfold getField
  rw [isValid_congr gs gs1 hw hh, hs, hb]

lemma newRound_invalid (gs : gameState) (draws : List point2d) (pos : point2d)
    (nextField : List point2d) (hs : gs.snakeHead = pos :: nextField)
    (hv : (movedHead gs pos).isValid gs = false) :
    newRound gs draws = .ok ({ gs with round := wrapUint (gs.round + 1) }, draws) := by
  have e1 : ∀ p : point2d, movedHead { gs with round := wrapUint (gs.round + 1) } p
      = movedHead gs p := fun p => movedHead_congr _ _ rfl rfl rfl p
  have e2 : ∀ p : point2d, p.isValid { gs with round := wrapUint (gs.round + 1) }
      = p.isValid gs := fun p => isValid_congr _ _ rfl rfl p
  unfold newRound
  simp only [e1, e2]
  simp only [hs, hv]
  rfl

lemma newRound_valid (gs : gameState) (draws : List point2d) (pos : point2d)
    (nextField : List point2d) (hs : gs.snakeHead = pos :: nextField)
    (hv : (movedHead gs pos).isValid gs = true) (f : field) (b : Bool)
    (hg : getField gs (movedHead gs pos) = .ok (f, b)) :
    newRound gs draws =
      if f = fieldSnake then
        .ok ({ gs with round := wrapUint (gs.round + 1), cancelled := true }, draws)
      else commitMove { gs with round := wrapUint (gs.round + 1) } (movedHead gs pos) draws := by
  have e1 : ∀ p : point2d, movedHead { gs with round := wrapUint (gs.round + 1) } p
      = movedHead gs p := fun p => movedHead_congr _ _ rfl rfl rfl p
  have e2 : ∀ p : point2d, p.isValid { gs with round := wrapUint (gs.round + 1) }
      = p.isValid gs := fun p => isValid_congr _ _ rfl rfl p
  have e3 : ∀ p : point2d, getField { gs with round := wrapUint (gs.round + 1) } p
      = getField gs p := fun p => getField_congr _ _ rfl rfl rfl rfl p
  unfold newRound
  simp only [e1, e2, e3]
  simp only [hs, hv, hg]
  rfl

lemma newRound_fault (gs : gameState) (draws : List point2d) (pos : point2d)
    (nextField : List point2d) (hs : gs.snakeHead = pos :: nextField)
    (hv : (movedHead gs pos).isValid gs = true) (e : Fault)
    (hg : getField gs (movedHead gs pos) = .error e) :
    newRound gs draws = .error e := by
  have e1 : ∀ p : point2d, movedHead { gs with round := wrapUint (gs.round + 1) } p
      = movedHead gs p := fun p => movedHead_congr _ _ rfl rfl rfl p
  have e2 : ∀ p : point2d, p.isValid { gs with round := wrapUint (gs.round + 1) }
      = p.isValid gs := fun p => isValid_congr _ _ rfl rfl p
  have e3 : ∀ p : point2d, getField { gs with round := wrapUint (gs.round + 1) } p
      = getField gs p := fun p => getField_congr _ _ rfl rfl rfl rfl p
  unfold newRound
  simp only [e1, e2, e3]
  simp only [hs, hv, hg]
  rfl

lemma newRound_nil (gs : gameState) (draws : List point2d) (hs : gs.snakeHead = []) :
    newRound gs draws = .error .nilDereference := by
  unfold newRound
  simp only [hs]

/-- C2. When the head is in bounds and the prospective head is the position of
some node of the current chain (the last node included), `newRound` returns
with the termination flag set and `round` incremented as a `uint64`, so by
exactly 1 below the maximum, and leaves the chain, `score`, `desiredSnakeLen`
and the board as they were; no draw of the random source is used. -/
theorem newRound_self_collision (gs : gameState) (draws : List point2d) (pos : point2d)
    (nextField : List point2d) (hs : gs.snakeHead = pos :: nextField)
    (hv : pos.isValid gs = true) (hc : movedHead gs pos ∈ gs.snakeHead) :
    ∃ gs1, newRound gs draws = .ok (gs1, draws) ∧ gs1.cancelled = true ∧
      gs1.round = wrapUint (gs.round + 1) ∧
      (gs.round + 1 < 18446744073709551616 → gs1.round = gs.round + 1) ∧
      gs1.snakeHead = gs.snakeHead ∧ gs1.score = gs.score ∧
      gs1.desiredSnakeLen = gs.desiredSnakeLen ∧ gs1.board = gs.board := by
  refine ⟨{ gs with round := wrapUint (gs.round + 1), cancelled := true }, ?_, rfl, rfl,
    fun h => wrapUint_eq_self _ h, rfl, rfl, rfl, rfl⟩
  have hv2 := movedHead_isValid gs pos hv
  rw [newRound_valid gs draws pos nextField hs hv2 fieldSnake true
    (getField_of_mem gs _ hv2 hc), if_pos rfl]

/-- C2 at `bitesTail`: the prospective head `(4,4)` is the position of the last
node, the flag is set and only `round` moves. -/
theorem newRound_self_collision_witness :
    (⟨5, 4⟩ : point2d).isValid bitesTail = true ∧
    movedHead bitesTail ⟨5, 4⟩ = ⟨4, 4⟩ ∧
    ∃ gs1, newRound bitesTail [] = .ok (gs1, []) ∧ gs1.cancelled = true ∧
      gs1.round = wrapUint (bitesTail.round + 1) ∧
      (bitesTail.round + 1 < 18446744073709551616 → gs1.round = bitesTail.round + 1) ∧
      gs1.snakeHead = bitesTail.snakeHead ∧ gs1.score = bitesTail.score ∧
      gs1.desiredSnakeLen = bitesTail.desiredSnakeLen ∧ gs1.board = bitesTail.board :=
  ⟨by with_unfolding_all decide, by with_unfolding_all decide,
    newRound_self_collision bitesTail [] ⟨5, 4⟩ [⟨5, 5⟩, ⟨4, 5⟩, ⟨4, 4⟩] rfl
      (by with_unfolding_all decide) (by with_unfolding_all decide)⟩

/-! ## C5: bounds of the lookup -/

lemma getField_invalid (gs : gameState) (p : point2d) (hv : p.isValid gs = false) :
    getField gs p = .ok (0, false) := by
  unfold getField
  rw [hv]
  rfl

lemma getField_free (gs : gameState) (p : point2d) (hv : p.isValid gs = true)
    (hm : p ∉ gs.snakeHead) :
    getField gs p =
      match boardGet gs.board p with
      | none => .error .indexOutOfRange
      | some f => .ok (f, true) := by
  have hsc : snakeScan p gs.snakeHead = false := by
    rw [← Bool.not_eq_true, snakeScan_iff]
    exact hm
  unfold getField
  rw [hv, hsc]
  rfl

lemma getField_valid_snd (gs : gameState) (p : point2d) (hv : p.isValid gs = true) (f : field)
    (b : Bool) (h : getField gs p = .ok (f, b)) : b = true := by
  by_cases hm : p ∈ gs.snakeHead
  · rw [getField_of_mem gs p hv hm] at h
    injection h with h
    injection h with _ h2
    exact h2.symm
  · rw [getField_free gs p hv hm] at h
    cases hb : boardGet gs.board p with
    | none => rw [hb] at h; cases h
    | some c =>
      rw [hb] at h
      injection h with h
      injection h with _ h2
      exact h2.symm

/-- C5. On a board whose dimensions are values of `int`, `getField` returns
`exists = false` exactly for the points with `x < 0`, `x ≥ w`, `y < 0` or
`y ≥ h`, and the field returned with it is the zero value. -/
theorem getField_exists_iff (gs : gameState) (p : point2d) (hd : dimsFit gs) :
    ((∃ f, getField gs p = .ok (f, false)) ↔
      (p.x < 0 ∨ p.x ≥ (gs.boardWidth : Int) ∨ p.y < 0 ∨ p.y ≥ (gs.boardHeight : Int))) ∧
    (∀ f, getField gs p = .ok (f, false) → f = 0) := by
  have hiff := isValid_iff_inBounds gs hd p
  unfold inBounds at hiff
  by_cases hv : p.isValid gs = true
  · have hin := hiff.1 hv
    refine ⟨⟨fun ⟨f, hf⟩ => ?_, fun h => ?_⟩, fun f hf => ?_⟩
    · exact absurd (getField_valid_snd gs p hv f false hf) (by decide)
    · omega
    · exact absurd (getField_valid_snd gs p hv f false hf) (by decide)
  · have hout : ¬ (0 ≤ p.x ∧ p.x < (gs.boardWidth : Int) ∧ 0 ≤ p.y ∧ p.y < (gs.boardHeight : Int)) :=
      fun h => hv (hiff.2 h)
    have hv2 : p.isValid gs = false := by simpa using hv
    have hg := getField_invalid gs p hv2
    refine ⟨⟨fun _ => ?_, fun _ => ⟨0, hg⟩⟩, fun f hf => ?_⟩
    · omega
    · rw [hg] at hf
      injection hf with hf
      injection hf with h1 _
      exact h1.symm

/-- C5 on the 10x10 board of `main`: `(10,3)` lies outside and `getField` says so. -/
theorem getField_exists_iff_witness :
    dimsFit (mainState 10 10) ∧
    ∃ f, getField (mainState 10 10) ⟨10, 3⟩ = .ok (f, false) :=
  ⟨by decide, ((getField_exists_iff (mainState 10 10) ⟨10, 3⟩ (by decide)).1).2 (by decide)⟩

/-! ## C6: composed lookup -/

/-- C6. For a point that `isValid` accepts, `getField` returns `(fieldSnake, true)`
when some node of the chain holds the point, whatever the board stores there,
and otherwise `(board[p.x][p.y], true)`. -/
theorem getField_composed (gs : gameState) (p : point2d) (hv : p.isValid gs = true) :
    (p ∈ gs.snakeHead → getField gs p = .ok (fieldSnake, true)) ∧
    (p ∉ gs.snakeHead → ∀ c, boardGet gs.board p = some c → getField gs p = .ok (c, true)) := by
  refine ⟨fun hm => getField_of_mem gs p hv hm, fun hm c hc => ?_⟩
  rw [getField_free gs p hv hm, hc]

/-- C6 at `foodUnderSnake`: the cell `(5,4)` stores `fieldFood`, the head is on
it, and the lookup answers `fieldSnake`. -/
theorem getField_composed_witness :
    (⟨5, 4⟩ : point2d).isValid foodUnderSnake = true ∧
    boardGet foodUnderSnake.board ⟨5, 4⟩ = some fieldFood ∧
    getField foodUnderSnake ⟨5, 4⟩ = .ok (fieldSnake, true) :=
  ⟨by with_unfolding_all decide, by decide,
    (getField_composed foodUnderSnake ⟨5, 4⟩ (by with_unfolding_all decide)).1
      (by with_unfolding_all decide)⟩

/-! ## C7: input translation -/

lemma isReverse_up (d : userAction) : isReverse d userActionUp = decide (d = userActionDown) := by
  unfold isReverse userActionUp userActionDown userActionLeft userActionRight
  by_cases h : d = 3 <;> simp [h]

lemma isReverse_down (d : userAction) : isReverse d userActionDown = decide (d = userActionUp) := by
  unfold isReverse userActionUp userActionDown userActionLeft userActionRight
  by_cases h : d = 0 <;> simp [h]

lemma isReverse_left (d : userAction) : isReverse d userActionLeft = decide (d = userActionRight) := by
  unfold isReverse userActionUp userActionDown userActionLeft userActionRight
  by_cases h : d = 2 <;> simp [h]

lemma isReverse_right (d : userAction) : isReverse d userActionRight = decide (d = userActionLeft) := by
  unfold isReverse userActionUp userActionDown userActionLeft userActionRight
  by_cases h : d = 1 <;> simp [h]

lemma isReverse_self (d : userAction) : isReverse d d = false := by
  unfold isReverse userActionUp userActionDown userActionLeft userActionRight
  rw [Bool.eq_false_iff]
  intro h
  simp only [Bool.or_eq_true, Bool.and_eq_true, beq_iff_eq] at h
  rcases h with ((h | h) | h) | h <;> obtain ⟨h1, h2⟩ := h <;> rw [h1] at h2 <;> cases h2

lemma onEvent_arrow_eq (gs : gameState) (key : termboxKey) (k : userAction)
    (hk : arrowDirection key = some k) :
    onEvent gs (.EventKey key) =
      (if isReverse gs.userAction k then gs else { gs with userAction := k }, .polling) := by
  cases key <;> simp only [arrowDirection, Option.some.injEq] at hk <;> try cases hk
  · rw [isReverse_up]
    by_cases h : gs.userAction = userActionDown <;> simp [onEvent, h]
  · rw [isReverse_left]
    by_cases h : gs.userAction = userActionRight <;> simp [onEvent, h]
  · rw [isReverse_right]
    by_cases h : gs.userAction = userActionLeft <;> simp [onEvent, h]
  · rw [isReverse_down]
    by_cases h : gs.userAction = userActionUp <;> simp [onEvent, h]

/-- C7. For an arrow key standing for the direction `k`, the handler keeps the
whole state when `k` is the exact reverse of the stored direction and
otherwise stores `k` and changes nothing else; a key for the stored direction
itself is accepted. On a live state the listener does just this with the event. -/
theorem onEvent_arrow (gs : gameState) (key : termboxKey) (k : userAction)
    (hk : arrowDirection key = some k) :
    (isReverse gs.userAction k = true →
      onEvent gs (.EventKey key) = (gs, .polling)) ∧
    (isReverse gs.userAction k = false →
      onEvent gs (.EventKey key) = ({ gs with userAction := k }, .polling)) ∧
    (gs.userAction = k →
      onEvent gs (.EventKey key) = ({ gs with userAction := k }, .polling)) ∧
    (gs.cancelled = false →
      keyPressListener gs [.EventKey key] = onEvent gs (.EventKey key)) := by
  have h := onEvent_arrow_eq gs key k hk
  refine ⟨fun hr => ?_, fun hr => ?_, fun hr => ?_, fun hc => ?_⟩
  · rw [h, hr]; rfl
  · rw [h, hr]; rfl
  · rw [h, hr, isReverse_self]; rfl
  · unfold keyPressListener
    rw [h, hc]
    simp [keyPressListener]
    split_ifs <;> simp [hc]

/-- C7 on the example of the specification: stored Up, input Down, Up remains. -/
theorem onEvent_arrow_witness :
    arrowDirection .KeyArrowDown = some userActionDown ∧
    isReverse (mainState 10 10).userAction userActionDown = true ∧
    (mainState 10 10).userAction = userActionUp ∧
    onEvent (mainState 10 10) (.EventKey .KeyArrowDown) = (mainState 10 10, .polling) :=
  ⟨rfl, by decide, rfl,
    (onEvent_arrow (mainState 10 10) .KeyArrowDown userActionDown rfl).1 (by decide)⟩

/-! ## Board lemmas -/

lemma boardSet_eq_some (b : List (List field)) (p : point2d) (v : field) (b1 : List (List field))
    (h : boardSet b p v = some b1) :
    0 ≤ p.x ∧ 0 ≤ p.y ∧ ∃ col, b[p.x.toNat]? = some col ∧ p.y.toNat < col.length ∧
      b1 = b.set p.x.toNat (col.set p.y.toNat v) := by
  unfold boardSet at h
  split_ifs at h with hneg
  have h0 : 0 ≤ p.x ∧ 0 ≤ p.y := by omega
  cases hc : b[p.x.toNat]? with
  | none => rw [hc] at h; cases h
  | some col =>
    rw [hc] at h
    dsimp only at h
    split_ifs at h with hy
    injection h with h
    exact ⟨h0.1, h0.2, col, rfl, hy, h.symm⟩

lemma boardGet_eq (b : List (List field)) (p : point2d) (h0 : 0 ≤ p.x) (h1 : 0 ≤ p.y) :
    boardGet b p = (b[p.x.toNat]?).bind (fun col => col[p.y.toNat]?) := by
  unfold boardGet
  rw [if_neg (by omega)]
  cases b[p.x.toNat]? <;> rfl

lemma boardGet_neg (b : List (List field)) (p : point2d) (h : p.x < 0 ∨ p.y < 0) :
    boardGet b p = none := by
  unfold boardGet
  rw [if_pos h]

lemma boardGet_boardSet_same (b : List (List field)) (p : point2d) (v : field)
    (b1 : List (List field)) (h : boardSet b p v = some b1) : boardGet b1 p = some v := by
  obtain ⟨h0, h1, col, hc, hy, rfl⟩ := boardSet_eq_some b p v b1 h
  have hx : p.x.toNat < b.length := by
    rcases List.getElem?_eq_some_iff.1 hc with ⟨hlt, _⟩
    exact hlt
  rw [boardGet_eq _ _ h0 h1, List.getElem?_set_self hx]
  simp [List.getElem?_set_self hy]

lemma boardGet_boardSet_ne (b : List (List field)) (p q : point2d) (v : field)
    (b1 : List (List field)) (h : boardSet b p v = some b1) (hne : q ≠ p) :
    boardGet b1 q = boardGet b q := by
  obtain ⟨h0, h1, col, hc, hy, rfl⟩ := boardSet_eq_some b p v b1 h
  by_cases hq : q.x < 0 ∨ q.y < 0
  · rw [boardGet_neg _ _ hq, boardGet_neg _ _ hq]
  · have hq0 : 0 ≤ q.x ∧ 0 ≤ q.y := by omega
    rw [boardGet_eq _ _ hq0.1 hq0.2, boardGet_eq _ _ hq0.1 hq0.2]
    by_cases hx : p.x.toNat = q.x.toNat
    · have hx2 : q.x.toNat < b.length := by
        rcases List.getElem?_eq_some_iff.1 hc with ⟨hlt, _⟩
        omega
      have hyne : p.y.toNat ≠ q.y.toNat := by
        intro hy2
        apply hne
        cases p
        cases q
        simp only [point2d.mk.injEq] at *
        omega
      rw [← hx, List.getElem?_set_self (by omega), hc]
      simp [List.getElem?_set_ne hyne]
    · rw [List.getElem?_set_ne hx]

lemma boardSet_of_boardGet (b : List (List field)) (p : point2d) (v c : field)
    (h : boardGet b p = some c) : ∃ b1, boardSet b p v = some b1 := by
  unfold boardGet at h
  unfold boardSet
  split_ifs at h with hneg
  rw [if_neg hneg]
  cases hc : b[p.x.toNat]? with
  | none => rw [hc] at h; cases h
  | some col =>
    rw [hc] at h
    dsimp only at h ⊢
    have hy : p.y.toNat < col.length := by
      rcases List.getElem?_eq_some_iff.1 h with ⟨hlt, _⟩
      exact hlt
    rw [if_pos hy]
    exact ⟨_, rfl⟩

/-! ## C9: food respawn -/

lemma dims_pos_of_isValid (gs : gameState) (p : point2d) (hv : p.isValid gs = true) :
    ¬ (uintToInt gs.boardWidth ≤ 0 ∨ uintToInt gs.boardHeight ≤ 0) := by
  rw [isValid_iff] at hv
  omega

lemma newFood_cons_snake (gs : gameState) (p : point2d) (rest : List point2d)
    (hv : p.isValid gs = true) (hm : p ∈ gs.snakeHead) :
    newFood gs (p :: rest) = newFood gs rest := by
  rw [newFood, if_neg (dims_pos_of_isValid gs p hv), getField_of_mem gs p hv hm]
  simp

lemma newFood_cons_free (gs : gameState) (p : point2d) (rest : List point2d)
    (hv : p.isValid gs = true) (hm : p ∉ gs.snakeHead) (c : field)
    (hc : boardGet gs.board p = some c) (hne : c ≠ fieldSnake) (b : List (List field))
    (hb : boardSet gs.board p fieldFood = some b) :
    newFood gs (p :: rest) = .ok ({ gs with board := b }, rest) := by
  rw [newFood, if_neg (dims_pos_of_isValid gs p hv), getField_free gs p hv hm, hc]
  simp [hne, hb]

lemma newFood_cons_stored (gs : gameState) (p : point2d) (rest : List point2d)
    (hv : p.isValid gs = true) (hm : p ∉ gs.snakeHead)
    (hc : boardGet gs.board p = some fieldSnake) :
    newFood gs (p :: rest) = newFood gs rest := by
  rw [newFood, if_neg (dims_pos_of_isValid gs p hv), getField_free gs p hv hm, hc]
  simp

lemma newFood_ok (gs : gameState) (draws : List point2d) (gs1 : gameState)
    (draws1 : List point2d) (h : newFood gs draws = .ok (gs1, draws1)) :
    ∃ p, p ∈ draws ∧ p.isValid gs = true ∧ p ∉ gs.snakeHead ∧
      boardSet gs.board p fieldFood = some gs1.board ∧ gs1 = { gs with board := gs1.board } := by
  induction draws with
  | nil =>
    rw [newFood] at h
    split_ifs at h
  | cons p rest ih =>
    by_cases hv : p.isValid gs = true
    · by_cases hm : p ∈ gs.snakeHead
      · rw [newFood_cons_snake gs p rest hv hm] at h
        obtain ⟨q, hq, hrest⟩ := ih h
        exact ⟨q, List.mem_cons_of_mem _ hq, hrest⟩
      · cases hc : boardGet gs.board p with
        | none =>
          rw [newFood, if_neg (dims_pos_of_isValid gs p hv), getField_free gs p hv hm, hc] at h
          cases h
        | some c =>
          by_cases hne : c = fieldSnake
          · rw [hne] at hc
            rw [newFood_cons_stored gs p rest hv hm hc] at h
            obtain ⟨q, hq, hrest⟩ := ih h
            exact ⟨q, List.mem_cons_of_mem _ hq, hrest⟩
          · obtain ⟨b, hb⟩ := boardSet_of_boardGet gs.board p fieldFood c hc
            rw [newFood_cons_free gs p rest hv hm c hc hne b hb] at h
            injection h with h
            injection h with h1 h2
            subst h1
            exact ⟨p, List.mem_cons_self _ _, hv, hm, hb, rfl⟩
    · have hv2 : p.isValid gs = false := by simpa using hv
      rw [newFood] at h
      split_ifs at h
      rw [getField_invalid gs p hv2] at h
      cases h

lemma newFood_returns (gs : gameState) (pre : List point2d) (p : point2d) (rest : List point2d)
    (hpre : ∀ q ∈ pre, q.isValid gs = true ∧ q ∈ gs.snakeHead)
    (hv : p.isValid gs = true) (hm : p ∉ gs.snakeHead) (c : field)
    (hc : boardGet gs.board p = some c) (hne : c ≠ fieldSnake) :
    ∃ b, boardSet gs.board p fieldFood = some b ∧
      newFood gs (pre ++ p :: rest) = .ok ({ gs with board := b }, rest) := by
  obtain ⟨b, hb⟩ := boardSet_of_boardGet gs.board p fieldFood c hc
  refine ⟨b, hb, ?_⟩
  induction pre with
  | nil => exact newFood_cons_free gs p rest hv hm c hc hne b hb
  | cons q pre ih =>
    have hq := hpre q (List.mem_cons_self _ _)
    rw [List.cons_append, newFood_cons_snake gs q _ hq.1 hq.2]
    exact ih (fun r hr => hpre r (List.mem_cons_of_mem _ hr))

/-- C9. Whenever `newFood` returns, for any draws of the random source, there is
one point `p` that `isValid` accepts and no node of the chain holds, the new
board is the old one with `fieldFood` written at `p` (so `p` now holds
`fieldFood` and every other cell reads as before), and nothing else of the
state has changed. When a single accepted point is free of the chain, `p` is
that point. -/
theorem newFood_spawns (gs : gameState) (draws : List point2d) (gs1 : gameState)
    (draws1 : List point2d) (h : newFood gs draws = .ok (gs1, draws1)) :
    ∃ p, p.isValid gs = true ∧ p ∉ gs.snakeHead ∧
      boardSet gs.board p fieldFood = some gs1.board ∧
      boardGet gs1.board p = some fieldFood ∧
      (∀ q, q ≠ p → boardGet gs1.board q = boardGet gs.board q) ∧
      gs1 = { gs with board := gs1.board } ∧
      (∀ c : point2d, (∀ q : point2d, q.isValid gs = true → q ∉ gs.snakeHead → q = c) → p = c) := by
  obtain ⟨p, _, hv, hm, hb, hgs⟩ := newFood_ok gs draws gs1 draws1 h
  exact ⟨p, hv, hm, hb, boardGet_boardSet_same _ _ _ _ hb,
    fun q hq => boardGet_boardSet_ne _ _ _ _ _ hb hq, hgs, fun c hc => hc p hv hm⟩

/-- C9 at `oneFree`: the draws hit the chain three times, then the only free
cell `(1,0)`, which receives the food; the last draw is left unused. -/
theorem newFood_spawns_witness :
    newFood oneFree [⟨0, 0⟩, ⟨1, 1⟩, ⟨0, 1⟩, ⟨1, 0⟩, ⟨0, 0⟩] = .ok (placeFood oneFree 1 0, [⟨0, 0⟩]) ∧
    ∃ p, p.isValid oneFree = true ∧ p ∉ oneFree.snakeHead ∧
      boardSet oneFree.board p fieldFood = some (placeFood oneFree 1 0).board ∧
      boardGet (placeFood oneFree 1 0).board p = some fieldFood ∧
      (∀ q, q ≠ p → boardGet (placeFood oneFree 1 0).board q = boardGet oneFree.board q) ∧
      placeFood oneFree 1 0 = { oneFree with board := (placeFood oneFree 1 0).board } ∧
      (∀ c : point2d,
        (∀ q : point2d, q.isValid oneFree = true → q ∉ oneFree.snakeHead → q = c) → p = c) :=
  ⟨by with_unfolding_all decide,
    newFood_spawns oneFree [⟨0, 0⟩, ⟨1, 1⟩, ⟨0, 1⟩, ⟨1, 0⟩, ⟨0, 0⟩] (placeFood oneFree 1 0)
      [⟨0, 0⟩] (by with_unfolding_all decide)⟩


/-! ## Chain lemmas -/

lemma countLoop_eq (l : List point2d) (i : Nat) (hi : i < 18446744073709551616) :
    countLoop l i = (i + l.length) % 18446744073709551616 := by
  induction l generalizing i with
  | nil =>
    rw [countLoop, List.length_nil, Nat.add_zero, Nat.mod_eq_of_lt hi]
  | cons a rest ih =>
    have hw : wrapUint (i + 1) < 18446744073709551616 := by
      unfold wrapUint
      omega
    rw [countLoop, ih _ hw, List.length_cons]
    unfold wrapUint
    omega

lemma count_eq (pos : point2d) (nextField : List point2d) :
    count pos nextField = (nextField.length + 1) % 18446744073709551616 := by
  unfold count
  rw [countLoop_eq _ 0 (by omega), List.length_cons]
  omega

lemma beforeLast_cons (pos n : point2d) (rest : List point2d) :
    beforeLast pos (n :: rest) = some rest.length := by
  induction rest generalizing pos n with
  | nil => rfl
  | cons m rest ih =>
    rw [beforeLast, ih n m]
    rfl

lemma beforeLast_nil (pos : point2d) : beforeLast pos [] = none := rfl

lemma take_length_cons (pos n : point2d) (rest : List point2d) :
    (pos :: n :: rest).take (rest.length + 1) = (pos :: n :: rest).dropLast := by
  rw [List.dropLast_eq_take]
  simp

lemma moveTail_keep (gs : gameState) (pos : point2d) (nextField : List point2d)
    (hs : gs.snakeHead = pos :: nextField)
    (hc : ¬ (nextField.length + 1) % 18446744073709551616 > gs.desiredSnakeLen) :
    moveTail gs = .ok gs := by
  unfold moveTail
  rw [hs]
  dsimp only
  rw [count_eq, if_neg hc]

lemma moveTail_drop (gs : gameState) (pos n : point2d) (rest : List point2d)
    (hs : gs.snakeHead = pos :: n :: rest)
    (hc : (rest.length + 1 + 1) % 18446744073709551616 > gs.desiredSnakeLen) :
    moveTail gs = .ok { gs with snakeHead := (pos :: n :: rest).dropLast } := by
  unfold moveTail
  rw [hs]
  dsimp only
  rw [count_eq, List.length_cons, if_pos hc, beforeLast_cons, ← take_length_cons]

lemma commitMove_ok (gs : gameState) (newPos : point2d) (draws : List point2d) (gs1 : gameState)
    (draws1 : List point2d) (h : commitMove gs newPos draws = .ok (gs1, draws1)) :
    ∃ gs2, pickUp { gs with snakeHead := newPos :: gs.snakeHead } newPos draws = .ok (gs2, draws1)
      ∧ moveTail gs2 = .ok gs1 := by
  unfold commitMove at h
  cases hp : pickUp { gs with snakeHead := newPos :: gs.snakeHead } newPos draws with
  | error e => rw [hp] at h; cases h
  | ok r =>
    obtain ⟨gs2, d2⟩ := r
    rw [hp] at h
    dsimp only at h
    cases hm : moveTail gs2 with
    | error e => rw [hm] at h; cases h
    | ok gs3 =>
      rw [hm] at h
      dsimp only at h
      injection h with h
      injection h with h1 h2
      subst h1 h2
      exact ⟨gs2, rfl, hm⟩

lemma pickUp_food (gs : gameState) (head : point2d) (draws : List point2d)
    (hf : boardGet gs.board head = some fieldFood) :
    ∃ b, boardSet gs.board head fieldEmpty = some b ∧
      pickUp gs head draws =
        newFood { gs with board := b, score := wrapUint (gs.score + 1),
                          desiredSnakeLen := wrapUint (gs.desiredSnakeLen + 1) } draws := by
  obtain ⟨b, hb⟩ := boardSet_of_boardGet gs.board head fieldEmpty fieldFood hf
  refine ⟨b, hb, ?_⟩
  unfold pickUp
  rw [hf]
  dsimp only
  rw [if_pos rfl, hb]

lemma pickUp_plain (gs : gameState) (head : point2d) (draws : List point2d) (c : field)
    (hf : boardGet gs.board head = some c) (hne : c ≠ fieldFood) :
    pickUp gs head draws = .ok (gs, draws) := by
  unfold pickUp
  rw [hf]
  dsimp only
  rw [if_neg hne]

/-! ## C3: eating tick -/

lemma newFood_frame (gs : gameState) (draws : List point2d) (gs1 : gameState)
    (draws1 : List point2d) (h : newFood gs draws = .ok (gs1, draws1)) :
    gs1.boardWidth = gs.boardWidth ∧ gs1.boardHeight = gs.boardHeight ∧ gs1.round = gs.round ∧
    gs1.score = gs.score ∧ gs1.desiredSnakeLen = gs.desiredSnakeLen ∧
    gs1.snakeHead = gs.snakeHead ∧ gs1.userAction = gs.userAction ∧
    gs1.cancelled = gs.cancelled := by
  obtain ⟨p, _, _, _, _, hgs⟩ := newFood_ok gs draws gs1 draws1 h
  refine ⟨?_, ?_, ?_, ?_, ?_, ?_, ?_, ?_⟩
  · have e := congrArg gameState.boardWidth hgs
    exact e
  · have e := congrArg gameState.boardHeight hgs
    exact e
  · have e := congrArg gameState.round hgs
    exact e
  · have e := congrArg gameState.score hgs
    exact e
  · have e := congrArg gameState.desiredSnakeLen hgs
    exact e
  · have e := congrArg gameState.snakeHead hgs
    exact e
  · have e := congrArg gameState.userAction hgs
    exact e
  · have e := congrArg gameState.cancelled hgs
    exact e

/-- C3. With every node in bounds and the chain as long as `desiredSnakeLen`,
when no node holds the prospective head and its cell stores `fieldFood`, every
result `newRound` returns, whatever the draws of the respawn, has `score` and
`desiredSnakeLen` incremented as `uint` (by exactly 1 below the maximum), the
chain equal to the new head followed by the whole old chain, so one node
longer, the termination flag as before, and `fieldEmpty` in the cell of the
new head. -/
theorem newRound_eats (gs : gameState) (draws : List point2d) (pos : point2d)
    (nextField : List point2d) (hs : gs.snakeHead = pos :: nextField)
    (hin : ∀ q ∈ gs.snakeHead, q.isValid gs = true)
    (hlen : gs.snakeHead.length = gs.desiredSnakeLen)
    (hfree : movedHead gs pos ∉ gs.snakeHead)
    (hfood : boardGet gs.board (movedHead gs pos) = some fieldFood)
    (gs1 : gameState) (draws1 : List point2d) (hr : newRound gs draws = .ok (gs1, draws1)) :
    gs1.score = wrapUint (gs.score + 1) ∧
    (gs.score + 1 < 18446744073709551616 → gs1.score = gs.score + 1) ∧
    gs1.desiredSnakeLen = wrapUint (gs.desiredSnakeLen + 1) ∧
    (gs.desiredSnakeLen + 1 < 18446744073709551616 →
      gs1.desiredSnakeLen = gs.desiredSnakeLen + 1) ∧
    gs1.snakeHead = movedHead gs pos :: gs.snakeHead ∧
    gs1.snakeHead.length = gs.snakeHead.length + 1 ∧
    gs1.cancelled = gs.cancelled ∧
    boardGet gs1.board (movedHead gs pos) = some fieldEmpty := by
  have hhead : pos.isValid gs = true := hin pos (by rw [hs]; exact List.mem_cons_self _ _)
  have hv2 := movedHead_isValid gs pos hhead
  have hg : getField gs (movedHead gs pos) = .ok (fieldFood, true) := by
    rw [getField_free gs _ hv2 hfree, hfood]
  rw [newRound_valid gs draws pos nextField hs hv2 fieldFood true hg, if_neg (by decide)] at hr
  obtain ⟨gs2, hp, hm⟩ := commitMove_ok _ _ _ _ _ hr
  obtain ⟨b, hb, hpu⟩ := pickUp_food
    { gs with round := wrapUint (gs.round + 1), snakeHead := movedHead gs pos :: gs.snakeHead }
    (movedHead gs pos) draws hfood
  rw [hpu] at hp
  obtain ⟨p, _, _, hpm, hbs, _⟩ := newFood_ok _ _ _ _ hp
  obtain ⟨_, _, _, hsc2, hd2, hs2, _, hc2⟩ := newFood_frame _ _ _ _ hp
  dsimp only at hsc2 hd2 hs2 hc2 hpm hbs
  rw [hs] at hs2
  have hk : moveTail gs2 = .ok gs2 := by
    apply moveTail_keep gs2 _ _ hs2
    rw [hd2, ← hlen, hs]
    unfold wrapUint
    simp
  rw [hk] at hm
  injection hm with hm
  subst hm
  have hne : movedHead gs pos ≠ p := by
    intro e
    apply hpm
    rw [← e]
    exact List.mem_cons_self _ _
  refine ⟨hsc2, fun h => ?_, hd2, fun h => ?_, ?_, ?_, hc2, ?_⟩
  · rw [hsc2, wrapUint_eq_self _ h]
  · rw [hd2, wrapUint_eq_self _ h]
  · rw [hs2, hs]
  · rw [hs2, hs]
    rfl
  · rw [boardGet_boardSet_ne _ _ _ _ _ hbs hne]
    exact boardGet_boardSet_same _ _ _ _ hb


/-- C3 on the scenario of the specification: on the 10x10 board with the food
`k` cells above the head, `k` rounds with direction Up end with score 1 and a
chain of 4 nodes, for `k = 1, 2, 3, 4`; the theorem is applied to the round of
`k = 1`. -/
theorem newRound_eats_witness :
    rounds 1 (foodAbove 1) [⟨0, 0⟩] = .ok (hasEaten 1, []) ∧
    rounds 2 (foodAbove 2) [⟨0, 0⟩] = .ok (hasEaten 2, []) ∧
    rounds 3 (foodAbove 3) [⟨0, 0⟩] = .ok (hasEaten 3, []) ∧
    rounds 4 (foodAbove 4) [⟨0, 0⟩] = .ok (hasEaten 4, []) ∧
    (hasEaten 1).score = wrapUint ((foodAbove 1).score + 1) ∧
    ((foodAbove 1).score + 1 < 18446744073709551616 →
      (hasEaten 1).score = (foodAbove 1).score + 1) ∧
    (hasEaten 1).desiredSnakeLen = wrapUint ((foodAbove 1).desiredSnakeLen + 1) ∧
    ((foodAbove 1).desiredSnakeLen + 1 < 18446744073709551616 →
      (hasEaten 1).desiredSnakeLen = (foodAbove 1).desiredSnakeLen + 1) ∧
    (hasEaten 1).snakeHead = movedHead (foodAbove 1) ⟨5, 4⟩ :: (foodAbove 1).snakeHead ∧
    (hasEaten 1).snakeHead.length = (foodAbove 1).snakeHead.length + 1 ∧
    (hasEaten 1).cancelled = (foodAbove 1).cancelled ∧
    boardGet (hasEaten 1).board (movedHead (foodAbove 1) ⟨5, 4⟩) = some fieldEmpty :=
  ⟨by with_unfolding_all decide, by with_unfolding_all decide, by with_unfolding_all decide,
    by with_unfolding_all decide,
    newRound_eats (foodAbove 1) [⟨0, 0⟩] ⟨5, 4⟩ [⟨5, 5⟩, ⟨5, 6⟩] (by with_unfolding_all decide)
      (by with_unfolding_all decide) (by with_unfolding_all decide)
      (by with_unfolding_all decide) (by with_unfolding_all decide) (hasEaten 1) []
      (by with_unfolding_all decide)⟩

/-! ## The branches of the round transition -/

lemma snakeHead_update_self (gs : gameState) (l : List point2d) (h : gs.snakeHead = l) :
    { gs with snakeHead := l } = gs := by
  subst h
  rfl

lemma moveTail_two (gs : gameState) (pos n : point2d) (rest : List point2d)
    (hs : gs.snakeHead = pos :: n :: rest) :
    moveTail gs =
      .ok { gs with snakeHead := tailMoved (pos :: n :: rest) gs.desiredSnakeLen } := by
  unfold tailMoved
  by_cases hc : (rest.length + 1 + 1) % 18446744073709551616 > gs.desiredSnakeLen
  · rw [moveTail_drop gs pos n rest hs hc, List.length_cons, List.length_cons, if_pos hc]
  · rw [moveTail_keep gs pos (n :: rest) hs (by rw [List.length_cons]; exact hc),
      List.length_cons, List.length_cons, if_neg hc, snakeHead_update_self gs _ hs]

lemma pickUp_cases (gs : gameState) (head : point2d) (draws : List point2d) (gs2 : gameState)
    (draws2 : List point2d) (h : pickUp gs head draws = .ok (gs2, draws2)) :
    (boardGet gs.board head = some fieldFood ∧
      ∃ b p, boardSet gs.board head fieldEmpty = some b ∧ p.isValid gs = true ∧
        p ∉ gs.snakeHead ∧ boardSet b p fieldFood = some gs2.board ∧
        gs2 = { gs with board := gs2.board, score := wrapUint (gs.score + 1),
                        desiredSnakeLen := wrapUint (gs.desiredSnakeLen + 1) }) ∨
    (∃ c, boardGet gs.board head = some c ∧ c ≠ fieldFood ∧ gs2 = gs ∧ draws2 = draws) := by
  cases hc : boardGet gs.board head with
  | none =>
    unfold pickUp at h
    rw [hc] at h
    cases h
  | some c =>
    by_cases hf : c = fieldFood
    · left
      subst hf
      obtain ⟨b, hb, hpu⟩ := pickUp_food gs head draws hc
      rw [hpu] at h
      obtain ⟨p, _, hv, hm, hbs, hgs⟩ := newFood_ok _ _ _ _ h
      exact ⟨rfl, b, p, hb, hv, hm, hbs, hgs⟩
    · right
      rw [pickUp_plain gs head draws c hc hf] at h
      injection h with h
      injection h with h1 h2
      exact ⟨c, rfl, hf, h1.symm, h2.symm⟩

lemma pickUp_snakeHead (gs : gameState) (head : point2d) (draws : List point2d) (gs2 : gameState)
    (draws2 : List point2d) (h : pickUp gs head draws = .ok (gs2, draws2)) :
    gs2.snakeHead = gs.snakeHead := by
  rcases pickUp_cases gs head draws gs2 draws2 h with ⟨_, b, p, _, _, _, _, hgs⟩ | ⟨c, _, _, hgs, _⟩
  · have e := congrArg gameState.snakeHead hgs
    exact e
  · rw [hgs]

lemma commitMove_cases (gs : gameState) (newPos : point2d) (draws : List point2d)
    (gs1 : gameState) (draws1 : List point2d) (pos : point2d) (nextField : List point2d)
    (hs : gs.snakeHead = pos :: nextField)
    (h : commitMove gs newPos draws = .ok (gs1, draws1)) :
    ∃ gs2, pickUp { gs with snakeHead := newPos :: gs.snakeHead } newPos draws = .ok (gs2, draws1) ∧
      gs1 = { gs2 with snakeHead := tailMoved (newPos :: gs.snakeHead) gs2.desiredSnakeLen } := by
  obtain ⟨gs2, hp, hm⟩ := commitMove_ok gs newPos draws gs1 draws1 h
  have hs2 : gs2.snakeHead = newPos :: pos :: nextField := by
    rw [pickUp_snakeHead _ _ _ _ _ hp]
    dsimp only
    rw [hs]
  rw [moveTail_two gs2 newPos pos nextField hs2] at hm
  injection hm with hm
  refine ⟨gs2, hp, ?_⟩
  rw [hs, hm]

lemma commitMove_returns (gs : gameState) (newPos : point2d) (draws : List point2d)
    (gs2 : gameState) (draws1 : List point2d) (pos : point2d) (nextField : List point2d)
    (hs : gs.snakeHead = pos :: nextField)
    (hp : pickUp { gs with snakeHead := newPos :: gs.snakeHead } newPos draws = .ok (gs2, draws1)) :
    commitMove gs newPos draws =
      .ok ({ gs2 with snakeHead := tailMoved (newPos :: gs.snakeHead) gs2.desiredSnakeLen },
        draws1) := by
  have hs2 : gs2.snakeHead = newPos :: pos :: nextField := by
    rw [pickUp_snakeHead _ _ _ _ _ hp]
    dsimp only
    rw [hs]
  unfold commitMove
  rw [hp]
  dsimp only
  rw [moveTail_two gs2 newPos pos nextField hs2, hs]


/-- The eating round does return once the respawn draws a free cell, after
any number of draws on the chain. -/
lemma newRound_eats_returns (gs : gameState) (pos : point2d) (nextField : List point2d)
    (hs : gs.snakeHead = pos :: nextField) (hv : pos.isValid gs = true)
    (hfree : movedHead gs pos ∉ gs.snakeHead)
    (hfood : boardGet gs.board (movedHead gs pos) = some fieldFood)
    (pre : List point2d) (p : point2d) (rest : List point2d)
    (hpre : ∀ q ∈ pre, q.isValid gs = true ∧ q ∈ movedHead gs pos :: gs.snakeHead)
    (hpv : p.isValid gs = true) (hpm : p ∉ movedHead gs pos :: gs.snakeHead) (c : field)
    (hc : boardGet gs.board p = some c) (hne : c ≠ fieldSnake) :
    ∃ gs1, newRound gs (pre ++ p :: rest) = .ok (gs1, rest) := by
  have hv2 := movedHead_isValid gs pos hv
  have hg : getField gs (movedHead gs pos) = .ok (fieldFood, true) := by
    rw [getField_free gs _ hv2 hfree, hfood]
  rw [newRound_valid gs _ pos nextField hs hv2 fieldFood true hg, if_neg (by decide)]
  obtain ⟨b, hb, hpu⟩ := pickUp_food
    { gs with round := wrapUint (gs.round + 1), snakeHead := movedHead gs pos :: gs.snakeHead }
    (movedHead gs pos) (pre ++ p :: rest) hfood
  have hpn : p ≠ movedHead gs pos := fun e => hpm (by rw [e]; exact List.mem_cons_self _ _)
  have hcb : boardGet b p = some c := by
    rw [boardGet_boardSet_ne _ _ _ _ _ hb hpn]
    exact hc
  obtain ⟨b2, _, hnf⟩ := newFood_returns
    { gs with round := wrapUint (gs.round + 1), snakeHead := movedHead gs pos :: gs.snakeHead,
              board := b, score := wrapUint (gs.score + 1),
              desiredSnakeLen := wrapUint (gs.desiredSnakeLen + 1) }
    pre p rest hpre hpv hpm c hcb hne
  rw [← hpu] at hnf
  rw [commitMove_returns { gs with round := wrapUint (gs.round + 1) } _ _ _ _ pos nextField hs hnf]
  exact ⟨_, rfl⟩

lemma newRound_cases (gs : gameState) (draws : List point2d) (gs1 : gameState)
    (draws1 : List point2d) (h : newRound gs draws = .ok (gs1, draws1)) :
    ∃ pos nextField, gs.snakeHead = pos :: nextField ∧
      (((movedHead gs pos).isValid gs = false ∧
          gs1 = { gs with round := wrapUint (gs.round + 1) } ∧ draws1 = draws) ∨
       ((movedHead gs pos).isValid gs = true ∧
          getField gs (movedHead gs pos) = .ok (fieldSnake, true) ∧
          gs1 = { gs with round := wrapUint (gs.round + 1), cancelled := true } ∧
          draws1 = draws) ∨
       ((movedHead gs pos).isValid gs = true ∧
          (∃ f, getField gs (movedHead gs pos) = .ok (f, true) ∧ f ≠ fieldSnake) ∧
          commitMove { gs with round := wrapUint (gs.round + 1) } (movedHead gs pos) draws
            = .ok (gs1, draws1))) := by
  by_cases hnil : gs.snakeHead = []
  · rw [newRound_nil gs draws hnil] at h
    cases h
  · obtain ⟨pos, nextField, hs⟩ := List.exists_cons_of_ne_nil hnil
    refine ⟨pos, nextField, hs, ?_⟩
    by_cases hv : (movedHead gs pos).isValid gs = true
    · cases hg : getField gs (movedHead gs pos) with
      | error e =>
        rw [newRound_fault gs draws pos nextField hs hv e hg] at h
        cases h
      | ok r =>
        obtain ⟨f, b⟩ := r
        have hb := getField_valid_snd gs _ hv f b hg
        subst hb
        rw [newRound_valid gs draws pos nextField hs hv f true hg] at h
        by_cases hf : f = fieldSnake
        · subst hf
          rw [if_pos rfl] at h
          injection h with h
          injection h with h1 h2
          exact Or.inr (Or.inl ⟨hv, rfl, h1.symm, h2.symm⟩)
        · rw [if_neg hf] at h
          exact Or.inr (Or.inr ⟨hv, ⟨f, rfl, hf⟩, h⟩)
    · have hv2 : (movedHead gs pos).isValid gs = false := by simpa using hv
      rw [newRound_invalid gs draws pos nextField hs hv2] at h
      injection h with h
      injection h with h1 h2
      exact Or.inl ⟨hv2, h1.symm, h2.symm⟩

lemma not_mem_of_getField (gs : gameState) (p : point2d) (hv : p.isValid gs = true) (f : field)
    (hg : getField gs p = .ok (f, true)) (hf : f ≠ fieldSnake) : p ∉ gs.snakeHead := by
  intro hm
  rw [getField_of_mem gs p hv hm] at hg
  injection hg with hg
  injection hg with h1 _
  exact hf h1.symm

/-- What every returning `newRound` does: it stays (guard or collision), eats,
or moves plainly. -/
lemma newRound_fields (gs : gameState) (draws : List point2d) (gs1 : gameState)
    (draws1 : List point2d) (h : newRound gs draws = .ok (gs1, draws1)) :
    ∃ pos nextField, gs.snakeHead = pos :: nextField ∧
      gs1.round = wrapUint (gs.round + 1) ∧ gs1.userAction = gs.userAction ∧
      gs1.boardWidth = gs.boardWidth ∧ gs1.boardHeight = gs.boardHeight ∧
      ((gs1.snakeHead = gs.snakeHead ∧ gs1.desiredSnakeLen = gs.desiredSnakeLen ∧
          gs1.score = gs.score ∧ gs1.board = gs.board) ∨
       ((movedHead gs pos).isValid gs = true ∧ movedHead gs pos ∉ gs.snakeHead ∧
          boardGet gs.board (movedHead gs pos) = some fieldFood ∧
          gs1.desiredSnakeLen = wrapUint (gs.desiredSnakeLen + 1) ∧
          gs1.score = wrapUint (gs.score + 1) ∧ gs1.cancelled = gs.cancelled ∧
          gs1.snakeHead = tailMoved (movedHead gs pos :: gs.snakeHead) gs1.desiredSnakeLen ∧
          ∃ b p, boardSet gs.board (movedHead gs pos) fieldEmpty = some b ∧
            p.isValid gs = true ∧ p ∉ movedHead gs pos :: gs.snakeHead ∧
            boardSet b p fieldFood = some gs1.board) ∨
       ((movedHead gs pos).isValid gs = true ∧ movedHead gs pos ∉ gs.snakeHead ∧
          (∃ c, boardGet gs.board (movedHead gs pos) = some c ∧ c ≠ fieldFood ∧
            c ≠ fieldSnake) ∧
          gs1.desiredSnakeLen = gs.desiredSnakeLen ∧ gs1.score = gs.score ∧
          gs1.board = gs.board ∧ gs1.cancelled = gs.cancelled ∧ draws1 = draws ∧
          gs1.snakeHead = tailMoved (movedHead gs pos :: gs.snakeHead) gs1.desiredSnakeLen)) := by
  obtain ⟨pos, nextField, hs, hc⟩ := newRound_cases gs draws gs1 draws1 h
  refine ⟨pos, nextField, hs, ?_⟩
  rcases hc with ⟨_, hgs, _⟩ | ⟨_, _, hgs, _⟩ | ⟨hv, ⟨f, hg, hf⟩, hcm⟩
  · subst hgs
    exact ⟨rfl, rfl, rfl, rfl, Or.inl ⟨rfl, rfl, rfl, rfl⟩⟩
  · subst hgs
    exact ⟨rfl, rfl, rfl, rfl, Or.inl ⟨rfl, rfl, rfl, rfl⟩⟩
  · have hnm := not_mem_of_getField gs _ hv f hg hf
    obtain ⟨gs2, hp, hgs1⟩ := commitMove_cases { gs with round := wrapUint (gs.round + 1) }
      _ _ _ _ pos nextField hs hcm
    rcases pickUp_cases _ _ _ _ _ hp with ⟨hfood, b, p, hb, hpv, hpm, hbs, hgs2⟩ | ⟨c, hc, hcf, hgs2, hd⟩
    · have e1 := congrArg gameState.desiredSnakeLen hgs2
      have e2 := congrArg gameState.score hgs2
      have e3 := congrArg gameState.cancelled hgs2
      have e4 := congrArg gameState.round hgs2
      have e5 := congrArg gameState.userAction hgs2
      have e6 := congrArg gameState.boardWidth hgs2
      have e7 := congrArg gameState.boardHeight hgs2
      rw [hgs1]
      exact ⟨e4, e5, e6, e7, Or.inr (Or.inl ⟨hv, hnm, hfood, e1, e2, e3, rfl, b, p, hb, hpv, hpm, hbs⟩)⟩
    · subst hgs2
      subst hgs1
      have hcs : c ≠ fieldSnake := by
        intro e
        rw [getField_free gs _ hv hnm] at hg
        have hc2 : boardGet gs.board (movedHead gs pos) = some c := hc
        rw [hc2] at hg
        injection hg with hg
        injection hg with h1 _
        exact hf (h1.symm.trans e)
      exact ⟨rfl, rfl, rfl, rfl,
        Or.inr (Or.inr ⟨hv, hnm, ⟨c, hc, hcf, hcs⟩, rfl, rfl, rfl, rfl, hd, rfl⟩)⟩

lemma tailMoved_length_ge (a : point2d) (l : List point2d) (d : Nat) :
    l.length ≤ (tailMoved (a :: l) d).length := by
  unfold tailMoved
  split_ifs
  · rw [List.length_dropLast, List.length_cons]
    omega
  · rw [List.length_cons]
    omega

lemma newRound_length_mono (gs : gameState) (draws : List point2d) (gs1 : gameState)
    (draws1 : List point2d) (h : newRound gs draws = .ok (gs1, draws1)) :
    gs.snakeHead.length ≤ gs1.snakeHead.length := by
  obtain ⟨pos, nextField, _, _, _, _, _, hc⟩ := newRound_fields gs draws gs1 draws1 h
  rcases hc with ⟨hs, _⟩ | ⟨_, _, _, _, _, _, hs, _⟩ | ⟨_, _, _, _, _, _, _, _, hs⟩
  · rw [hs]
  · rw [hs]
    exact tailMoved_length_ge _ _ _
  · rw [hs]
    exact tailMoved_length_ge _ _ _

lemma newRound_length_step (gs : gameState) (draws : List point2d) (gs1 : gameState)
    (draws1 : List point2d) (hlen : gs.snakeHead.length = gs.desiredSnakeLen)
    (hd : gs.desiredSnakeLen + 1 < 18446744073709551616)
    (h : newRound gs draws = .ok (gs1, draws1)) :
    gs1.snakeHead.length = gs1.desiredSnakeLen := by
  obtain ⟨pos, nextField, _, _, _, _, _, hc⟩ := newRound_fields gs draws gs1 draws1 h
  rcases hc with ⟨hs, hd1, _⟩ | ⟨_, _, _, hd1, _, _, hs, _⟩ | ⟨_, _, _, hd1, _, _, _, _, hs⟩
  · rw [hs, hd1, hlen]
  · rw [hs, hd1, wrapUint_eq_self _ hd]
    unfold tailMoved
    rw [List.length_cons, hlen, Nat.mod_eq_of_lt hd, if_neg (by omega), List.length_cons, hlen]
  · rw [hs, hd1]
    unfold tailMoved
    rw [List.length_cons, hlen, Nat.mod_eq_of_lt hd, if_pos (by omega), List.length_dropLast,
      List.length_cons, hlen]
    rfl


/-! ## The listener leaves the game alone -/

lemma sameGame_refl (gs : gameState) : sameGame gs gs := ⟨rfl, rfl, rfl, rfl, rfl, rfl, rfl⟩

lemma sameGame_trans (a b c : gameState) (h1 : sameGame a b) (h2 : sameGame b c) :
    sameGame a c := by
  obtain ⟨a1, a2, a3, a4, a5, a6, a7⟩ := h1
  obtain ⟨b1, b2, b3, b4, b5, b6, b7⟩ := h2
  exact ⟨b1.trans a1, b2.trans a2, b3.trans a3, b4.trans a4, b5.trans a5, b6.trans a6,
    b7.trans a7⟩

lemma onEvent_sameGame (gs : gameState) (ev : termboxEvent) : sameGame gs (onEvent gs ev).1 := by
  cases ev with
  | EventKey key =>
    cases key <;> simp only [onEvent] <;> first
      | exact sameGame_refl gs
      | (split_ifs <;> exact ⟨rfl, rfl, rfl, rfl, rfl, rfl, rfl⟩)
  | EventInterrupt => exact sameGame_refl gs
  | EventError => exact sameGame_refl gs
  | EventOther => exact sameGame_refl gs

lemma keyPressListener_sameGame (gs : gameState) (events : List termboxEvent) :
    sameGame gs (keyPressListener gs events).1 := by
  induction events generalizing gs with
  | nil =>
    unfold keyPressListener
    split_ifs <;> exact ⟨rfl, rfl, rfl, rfl, rfl, rfl, rfl⟩
  | cons ev rest ih =>
    unfold keyPressListener
    split_ifs
    · exact ⟨rfl, rfl, rfl, rfl, rfl, rfl, rfl⟩
    · have h1 := onEvent_sameGame gs ev
      rcases hr : onEvent gs ev with ⟨gs1, st⟩
      rw [hr] at h1
      cases st
      · exact sameGame_trans _ _ _ h1 (ih gs1)
      · exact sameGame_trans _ _ _ h1 ⟨rfl, rfl, rfl, rfl, rfl, rfl, rfl⟩
      · exact h1

/-! ## C4: length balance -/

lemma mainState_chain (w h : Nat) :
    (mainState w h).snakeHead.length = 3 ∧ (mainState w h).desiredSnakeLen = 3 :=
  ⟨rfl, rfl⟩

/-- A key handled after the flag was set changes the direction of a cancelled state. -/
lemma keyAfterCancel_direction :
    collided.cancelled = true ∧ collided.userAction = userActionDown ∧
    keyAfterCancel.userAction = userActionLeft ∧ keyAfterCancel.cancelled = true := by
  refine ⟨rfl, rfl, ?_, ?_⟩ <;> with_unfolding_all decide

/-- A run of `main` that goes on after the flag was set: the keys Left and Down, a round
that collides and cancels, the key Left the listener was waiting for, one more round. -/
lemma reach_roundAfterCancel : Reach (foodAbove 1) roundAfterCancel :=
  Reach.tick keyAfterCancel roundAfterCancel [] []
    (Reach.pending collided (.EventKey .KeyArrowLeft)
      (Reach.tick leftThenDown collided [] []
        (Reach.listen (foodAbove 1) [.EventKey .KeyArrowLeft, .EventKey .KeyArrowDown] Reach.start)
        (by with_unfolding_all decide)))
    (by with_unfolding_all decide)

/-- C4. A returning `newRound` keeps the chain as long as `desiredSnakeLen`
when it was so before and the `uint` target can still be incremented; hence in
every state the running game reaches from the start of `main` (three nodes,
target 3, first food placed), through any key events, directions and draws,
those handled and run after the flag was set included, a chain that fits the
`uint` counter of `count` is exactly `desiredSnakeLen` long, the number the
footer prints. -/
theorem length_balance :
    (∀ (gs : gameState) (draws : List point2d) (gs1 : gameState) (draws1 : List point2d),
      gs.snakeHead.length = gs.desiredSnakeLen →
      gs.desiredSnakeLen + 1 < 18446744073709551616 →
      newRound gs draws = .ok (gs1, draws1) →
      gs1.snakeHead.length = gs1.desiredSnakeLen) ∧
    (∀ (w h : Nat) (draws : List point2d) (gs0 : gameState) (draws0 : List point2d)
      (gs : gameState),
      newFood (mainState w h) draws = .ok (gs0, draws0) →
      Reach gs0 gs →
      gs.snakeHead.length + 1 < 18446744073709551616 →
      gs.snakeHead.length = gs.desiredSnakeLen) := by
  refine ⟨fun gs draws gs1 draws1 hlen hd h => newRound_length_step gs draws gs1 draws1 hlen hd h,
    ?_⟩
  intro w h draws gs0 draws0 gs h0 hr
  induction hr with
  | start =>
    intro _
    obtain ⟨_, _, _, _, hd, hs, _, _⟩ := newFood_frame _ _ _ _ h0
    rw [hs, hd]
    rfl
  | listen gs events _ ih =>
    intro hb
    obtain ⟨_, _, _, _, _, hd, hs⟩ := keyPressListener_sameGame gs events
    rw [hs, hd]
    rw [hs] at hb
    exact ih hb
  | pending gs ev _ ih =>
    intro hb
    obtain ⟨_, _, _, _, _, hd, hs⟩ := onEvent_sameGame gs ev
    rw [hs, hd]
    rw [hs] at hb
    exact ih hb
  | tick gs gs1 d d1 _ hstep ih =>
    intro hb
    have hmono := newRound_length_mono gs d gs1 d1 hstep
    have hlen := ih (by omega)
    exact newRound_length_step gs d gs1 d1 hlen (by omega) hstep

/-- C4 on a run of `main`: the food is drawn at `(5,3)`, the first round eats
it, and the state reached has four nodes and target 4. Also on the run
that collides, handles the key Left after the flag was set and plays one more round. -/
theorem length_balance_witness :
    newFood (mainState 10 10) [⟨5, 3⟩] = .ok (foodAbove 1, []) ∧
    newRound (foodAbove 1) [⟨0, 0⟩] = .ok (hasEaten 1, []) ∧
    (hasEaten 1).snakeHead.length = 4 ∧ (hasEaten 1).desiredSnakeLen = 4 ∧
    (hasEaten 1).snakeHead.length = (hasEaten 1).desiredSnakeLen ∧
    roundAfterCancel.cancelled = true ∧
    roundAfterCancel.snakeHead.length = roundAfterCancel.desiredSnakeLen :=
  ⟨by with_unfolding_all decide, by with_unfolding_all decide, rfl, rfl,
    length_balance.2 10 10 [⟨5, 3⟩] (foodAbove 1) [] (hasEaten 1) (by with_unfolding_all decide)
      (Reach.tick (foodAbove 1) (hasEaten 1) [⟨0, 0⟩] [] Reach.start
        (by with_unfolding_all decide))
      (by decide),
    rfl,
    length_balance.2 10 10 [⟨5, 3⟩] (foodAbove 1) [] roundAfterCancel
      (by with_unfolding_all decide) reach_roundAfterCancel (by decide)⟩


/-! ## C10: exactly one food cell -/

lemma count_set (x : field) (l : List field) (i : Nat) (a c : field) (hc : l[i]? = some c) :
    (l.set i a).count x + (if c = x then 1 else 0) = l.count x + (if a = x then 1 else 0) := by
  induction l generalizing i with
  | nil => simp at hc
  | cons e rest ih =>
    cases i with
    | zero =>
      simp only [List.getElem?_cons_zero, Option.some.injEq] at hc
      subst hc
      simp only [List.set_cons_zero, List.count_cons, beq_iff_eq]
      omega
    | succ i =>
      simp only [List.getElem?_cons_succ] at hc
      have h := ih i hc
      simp only [List.set_cons_succ, List.count_cons]
      omega

lemma sum_set (l : List Nat) (i : Nat) (a c : Nat) (hc : l[i]? = some c) :
    (l.set i a).sum + c = l.sum + a := by
  induction l generalizing i with
  | nil => simp at hc
  | cons e rest ih =>
    cases i with
    | zero =>
      simp only [List.getElem?_cons_zero, Option.some.injEq] at hc
      subst hc
      simp only [List.set_cons_zero, List.sum_cons]
      omega
    | succ i =>
      simp only [List.getElem?_cons_succ] at hc
      have h := ih i hc
      simp only [List.set_cons_succ, List.sum_cons]
      omega

lemma foodCount_boardSet (b : List (List field)) (p : point2d) (v c : field)
    (b1 : List (List field)) (hs : boardSet b p v = some b1) (hg : boardGet b p = some c) :
    foodCount b1 + (if c = fieldFood then 1 else 0)
      = foodCount b + (if v = fieldFood then 1 else 0) := by
  obtain ⟨h0, h1, col, hcol, hy, rfl⟩ := boardSet_eq_some b p v b1 hs
  rw [boardGet_eq b p h0 h1, hcol] at hg
  change col[p.y.toNat]? = some c at hg
  unfold foodCount
  rw [List.map_set]
  have h2 := count_set fieldFood col p.y.toNat v c hg
  have h3 : (b.map (fun col => col.count fieldFood))[p.x.toNat]? = some (col.count fieldFood) := by
    rw [List.getElem?_map, hcol]
    rfl
  have h4 := sum_set (b.map (fun col => col.count fieldFood)) p.x.toNat
    ((col.set p.y.toNat v).count fieldFood) (col.count fieldFood) h3
  omega

lemma boardGet_of_boardSet (b : List (List field)) (p : point2d) (v : field)
    (b1 : List (List field)) (hs : boardSet b p v = some b1) : ∃ c, boardGet b p = some c := by
  obtain ⟨h0, h1, col, hcol, hy, _⟩ := boardSet_eq_some b p v b1 hs
  rw [boardGet_eq b p h0 h1, hcol]
  exact ⟨col[p.y.toNat], by simp [List.getElem?_eq_getElem hy]⟩

lemma foodCount_allEmpty (b : List (List field))
    (he : ∀ col ∈ b, ∀ c ∈ col, c = fieldEmpty) : foodCount b = 0 := by
  unfold foodCount
  apply List.sum_eq_zero
  intro n hn
  rw [List.mem_map] at hn
  obtain ⟨col, hcol, rfl⟩ := hn
  rw [List.count_eq_zero]
  intro hm
  have := he col hcol _ hm
  exact absurd this (by decide)

lemma foodCount_spawn (b : List (List field)) (p : point2d) (b1 : List (List field))
    (hs : boardSet b p fieldFood = some b1) (h0 : foodCount b = 0) : foodCount b1 = 1 := by
  obtain ⟨c, hc⟩ := boardGet_of_boardSet b p fieldFood b1 hs
  have h := foodCount_boardSet b p fieldFood c b1 hs hc
  rw [if_pos rfl, h0] at h
  split_ifs at h with hf
  · obtain ⟨b2, hb2⟩ := boardSet_of_boardGet b p fieldEmpty c hc
    have h2 := foodCount_boardSet b p fieldEmpty c b2 hb2 hc
    rw [if_pos hf, if_neg (by decide), h0] at h2
    omega
  · omega

lemma newRound_foodCount (gs : gameState) (draws : List point2d) (gs1 : gameState)
    (draws1 : List point2d) (h : newRound gs draws = .ok (gs1, draws1))
    (h1 : foodCount gs.board = 1) : foodCount gs1.board = 1 := by
  obtain ⟨pos, nextField, _, _, _, _, _, hc⟩ := newRound_fields gs draws gs1 draws1 h
  rcases hc with ⟨_, _, _, hb⟩ | ⟨_, _, hfood, _, _, _, _, b, p, hb, _, _, hbs⟩ |
    ⟨_, _, _, _, _, hb, _⟩
  · rw [hb, h1]
  · have h2 := foodCount_boardSet gs.board _ fieldEmpty fieldFood b hb hfood
    rw [if_pos rfl, if_neg (by decide), h1] at h2
    exact foodCount_spawn b p gs1.board hbs (by omega)
  · rw [hb, h1]

/-- C10. After the first `newFood` on a board whose cells are all `fieldEmpty`,
and in every state the running game reaches from there through key events and
returning rounds, whatever the directions and the draws and whether or not the
flag has been set meanwhile, exactly one cell of the board holds `fieldFood`. -/
theorem one_food (gs00 : gameState) (draws : List point2d) (gs0 : gameState)
    (draws0 : List point2d) (gs : gameState)
    (he : ∀ col ∈ gs00.board, ∀ c ∈ col, c = fieldEmpty)
    (h0 : newFood gs00 draws = .ok (gs0, draws0)) (hr : Reach gs0 gs) :
    foodCount gs.board = 1 := by
  induction hr with
  | start =>
    obtain ⟨p, _, _, _, hbs, _⟩ := newFood_ok _ _ _ _ h0
    exact foodCount_spawn _ p _ hbs (foodCount_allEmpty _ he)
  | listen gs events _ ih =>
    obtain ⟨hb, _⟩ := keyPressListener_sameGame gs events
    rw [hb]
    exact ih
  | pending gs ev _ ih =>
    obtain ⟨hb, _⟩ := onEvent_sameGame gs ev
    rw [hb]
    exact ih
  | tick gs gs1 d d1 _ hstep ih =>
    exact newRound_foodCount gs d gs1 d1 hstep ih

/-- C10 on a run of `main`: food drawn at `(5,3)`, eaten in the first round,
respawned at `(0,0)`; one food cell on the board reached. Also on the run
that collides, handles the key Left after the flag was set and plays one more round. -/
theorem one_food_witness :
    (∀ col ∈ (mainState 10 10).board, ∀ c ∈ col, c = fieldEmpty) ∧
    newFood (mainState 10 10) [⟨5, 3⟩] = .ok (foodAbove 1, []) ∧
    newRound (foodAbove 1) [⟨0, 0⟩] = .ok (hasEaten 1, []) ∧
    foodCount (hasEaten 1).board = 1 ∧
    roundAfterCancel.cancelled = true ∧ foodCount roundAfterCancel.board = 1 :=
  ⟨by decide, by with_unfolding_all decide, by with_unfolding_all decide,
    one_food (mainState 10 10) [⟨5, 3⟩] (foodAbove 1) [] (hasEaten 1) (by decide)
      (by with_unfolding_all decide)
      (Reach.tick (foodAbove 1) (hasEaten 1) [⟨0, 0⟩] [] Reach.start
        (by with_unfolding_all decide)),
    rfl,
    one_food (mainState 10 10) [⟨5, 3⟩] (foodAbove 1) [] roundAfterCancel (by decide)
      (by with_unfolding_all decide) reach_roundAfterCancel⟩


/-! ## C8: the input rule and the neck -/

lemma movedHead_formula (gs : gameState) (pos : point2d) (hd : dimsFit gs)
    (hp : inBounds gs pos) :
    movedHead gs pos =
      if gs.userAction = userActionUp then
        ⟨pos.x, if pos.y = 0 then (gs.boardHeight : Int) - 1 else pos.y - 1⟩
      else if gs.userAction = userActionLeft then
        ⟨if pos.x = 0 then (gs.boardWidth : Int) - 1 else pos.x - 1, pos.y⟩
      else if gs.userAction = userActionRight then
        ⟨if pos.x + 1 = (gs.boardWidth : Int) then 0 else pos.x + 1, pos.y⟩
      else if gs.userAction = userActionDown then
        ⟨pos.x, if pos.y + 1 = (gs.boardHeight : Int) then 0 else pos.y + 1⟩
      else pos := by
  obtain ⟨hx0, hxw, hy0, hyh⟩ := hp
  obtain ⟨hw, hh⟩ := hd
  have ew := uintToInt_eq_cast _ hw
  have eh := uintToInt_eq_cast _ hh
  by_cases h0 : gs.userAction = userActionUp
  · rw [if_pos h0, movedHead_up gs pos h0, eh, wrapInt_eq_self (pos.y - 1) (by omega) (by omega),
      wrapInt_eq_self ((gs.boardHeight : Int) - 1) (by omega) (by omega)]
    have e : (pos.y - 1 = -1) = (pos.y = 0) := by
      apply propext
      constructor <;> intro h <;> omega
    simp only [e]
  rw [if_neg h0]
  by_cases h1 : gs.userAction = userActionLeft
  · rw [if_pos h1, movedHead_left gs pos h1, ew, wrapInt_eq_self (pos.x - 1) (by omega) (by omega),
      wrapInt_eq_self ((gs.boardWidth : Int) - 1) (by omega) (by omega)]
    have e : (pos.x - 1 = -1) = (pos.x = 0) := by
      apply propext
      constructor <;> intro h <;> omega
    simp only [e]
  rw [if_neg h1]
  by_cases h2 : gs.userAction = userActionRight
  · rw [if_pos h2, movedHead_right gs pos h2, ew, wrapInt_eq_self (pos.x + 1) (by omega) (by omega)]
  rw [if_neg h2]
  by_cases h3 : gs.userAction = userActionDown
  · rw [if_pos h3, movedHead_down gs pos h3, eh, wrapInt_eq_self (pos.y + 1) (by omega) (by omega)]
  rw [if_neg h3, movedHead_other gs pos h0 h1 h2 h3]

/-- One step in the direction `d1` after one step in `d`, the second not the
reverse of the first, does not lead back on a board of three or more cells
each way. -/
lemma two_steps_ne (gs gs1 : gameState) (neck : point2d) (hd : dimsFit gs)
    (hw : gs1.boardWidth = gs.boardWidth) (hh : gs1.boardHeight = gs.boardHeight)
    (h3w : 3 ≤ gs.boardWidth) (h3h : 3 ≤ gs.boardHeight) (hp : inBounds gs neck)
    (ha : gs.userAction = userActionUp ∨ gs.userAction = userActionLeft ∨
      gs.userAction = userActionRight ∨ gs.userAction = userActionDown)
    (ha1 : gs1.userAction = userActionUp ∨ gs1.userAction = userActionLeft ∨
      gs1.userAction = userActionRight ∨ gs1.userAction = userActionDown)
    (hrev : isReverse gs.userAction gs1.userAction = false) :
    movedHead gs1 (movedHead gs neck) ≠ neck := by
  have hd1 : dimsFit gs1 := by
    unfold dimsFit at hd ⊢
    rw [hw, hh]
    exact hd
  have hv : (movedHead gs neck).isValid gs = true :=
    movedHead_isValid gs neck ((isValid_iff_inBounds gs hd neck).2 hp)
  have hp1 : inBounds gs1 (movedHead gs neck) := by
    have := (isValid_iff_inBounds gs hd _).1 hv
    unfold inBounds at this ⊢
    rw [hw, hh]
    exact this
  rw [movedHead_formula gs1 _ hd1 hp1, hw, hh]
  rw [movedHead_formula gs neck hd hp]
  obtain ⟨hx0, hxw, hy0, hyh⟩ := hp
  have h3w' : (3 : Int) ≤ (gs.boardWidth : Int) := by exact_mod_cast h3w
  have h3h' : (3 : Int) ≤ (gs.boardHeight : Int) := by exact_mod_cast h3h
  obtain ⟨nx, ny⟩ := neck
  dsimp only at hx0 hxw hy0 hyh ⊢
  rcases ha with h | h | h | h <;> rcases ha1 with h1 | h1 | h1 | h1 <;>
    rw [h, h1] at hrev <;>
    first
    | (exfalso; revert hrev; decide)
    | (simp only [h, h1, userActionUp, userActionLeft, userActionRight, userActionDown,
        if_true, if_false, point2d.mk.injEq, ne_eq, not_and,
        show ((1 : Int) = 0) = False from by decide, show ((2 : Int) = 0) = False from by decide,
        show ((3 : Int) = 0) = False from by decide, show ((2 : Int) = 1) = False from by decide,
        show ((3 : Int) = 1) = False from by decide, show ((3 : Int) = 2) = False from by decide]
       split_ifs <;> omega)

lemma onEvent_direction (gs : gameState) (ev : termboxEvent)
    (ha : gs.userAction = userActionUp ∨ gs.userAction = userActionLeft ∨
      gs.userAction = userActionRight ∨ gs.userAction = userActionDown) :
    ((onEvent gs ev).1.userAction = userActionUp ∨ (onEvent gs ev).1.userAction = userActionLeft ∨
      (onEvent gs ev).1.userAction = userActionRight ∨
      (onEvent gs ev).1.userAction = userActionDown) ∧
    isReverse gs.userAction (onEvent gs ev).1.userAction = false := by
  have hself := isReverse_self gs.userAction
  cases ev with
  | EventKey key =>
    cases hk : arrowDirection key with
    | none =>
      cases key <;> first | exact ⟨ha, hself⟩ | cases hk
    | some k =>
      rw [onEvent_arrow_eq gs key k hk]
      by_cases hr : isReverse gs.userAction k = true
      · rw [if_pos hr]
        exact ⟨ha, hself⟩
      · rw [if_neg hr]
        refine ⟨?_, by simpa using hr⟩
        cases key <;> cases hk
        · exact Or.inl rfl
        · exact Or.inr (Or.inl rfl)
        · exact Or.inr (Or.inr (Or.inl rfl))
        · exact Or.inr (Or.inr (Or.inr rfl))
  | EventInterrupt => exact ⟨ha, hself⟩
  | EventError => exact ⟨ha, hself⟩
  | EventOther => exact ⟨ha, hself⟩

/-- What the guards of the listener do achieve: after one polled event the
prospective head of the next round is not the neck. -/
lemma neck_safe_one_event (gs : gameState) (head neck : point2d) (hd : dimsFit gs)
    (h3w : 3 ≤ gs.boardWidth) (h3h : 3 ≤ gs.boardHeight) (hp : inBounds gs neck)
    (ha : gs.userAction = userActionUp ∨ gs.userAction = userActionLeft ∨
      gs.userAction = userActionRight ∨ gs.userAction = userActionDown)
    (ht : head = movedHead gs neck) (ev : termboxEvent) :
    movedHead (onEvent gs ev).1 head ≠ neck := by
  obtain ⟨ha1, hrev⟩ := onEvent_direction gs ev ha
  obtain ⟨_, hw, hh, _⟩ := onEvent_sameGame gs ev
  rw [ht]
  exact two_steps_ne gs (onEvent gs ev).1 neck hd hw hh h3w h3h hp ha ha1 hrev

/-- C8, the code at the failing input. The 10x10 game is live, the stored
direction is Up and the head `(5,4)` is the neck `(5,5)` moved one step Up. The
listener accepts Left (not the reverse of Up) and then Down (not the reverse
of Left), so Down is stored, the prospective head of the next round is the
neck `(5,5)`, and `newRound` ends the game. -/
theorem neck_after_two_keys :
    (foodAbove 1).cancelled = false ∧
    (foodAbove 1).userAction = userActionUp ∧
    (foodAbove 1).snakeHead = [⟨5, 4⟩, ⟨5, 5⟩, ⟨5, 6⟩] ∧
    movedHead (foodAbove 1) ⟨5, 5⟩ = ⟨5, 4⟩ ∧
    keyPressListener (foodAbove 1) [.EventKey .KeyArrowLeft, .EventKey .KeyArrowDown]
      = ({ foodAbove 1 with userAction := userActionDown }, .polling) ∧
    movedHead leftThenDown ⟨5, 4⟩ = ⟨5, 5⟩ ∧
    newRound leftThenDown [] =
      .ok ({ foodAbove 1 with userAction := userActionDown, round := 1, cancelled := true }, []) := by
  refine ⟨rfl, rfl, ?_, ?_, ?_, ?_, ?_⟩ <;> with_unfolding_all decide


/-! ## C17: the round transition and the pending direction -/

/-- C17. Every returning `newRound`, whatever its branch, leaves `userAction`,
`boardWidth` and `boardHeight` as they were: the round transition never writes
the pending direction. -/
theorem newRound_keeps_direction (gs : gameState) (draws : List point2d) (gs1 : gameState)
    (draws1 : List point2d) (h : newRound gs draws = .ok (gs1, draws1)) :
    gs1.userAction = gs.userAction ∧ gs1.boardWidth = gs.boardWidth ∧
    gs1.boardHeight = gs.boardHeight := by
  obtain ⟨_, _, _, _, ha, hw, hh, _⟩ := newRound_fields gs draws gs1 draws1 h
  exact ⟨ha, hw, hh⟩

/-- C17 on the plain move from `foodAbove 2`: direction and dimensions are kept. -/
theorem newRound_keeps_direction_witness :
    newRound (foodAbove 2) [] = .ok (movedUp, []) ∧
    movedUp.userAction = (foodAbove 2).userAction ∧
    movedUp.boardWidth = (foodAbove 2).boardWidth ∧
    movedUp.boardHeight = (foodAbove 2).boardHeight :=
  ⟨by with_unfolding_all decide,
    newRound_keeps_direction (foodAbove 2) [] movedUp [] (by with_unfolding_all decide)⟩

/-! ## C18: the guard for a head out of bounds -/

/-- C18, with the round counter. When the prospective head is not in bounds, `newRound`
returns at the guard without using a draw; `round` has been incremented as a
`uint64` before the guard (by exactly 1 below the maximum), and every other
field of the state is as before. -/
theorem newRound_guard (gs : gameState) (draws : List point2d) (pos : point2d)
    (nextField : List point2d) (hs : gs.snakeHead = pos :: nextField)
    (hv : (movedHead gs pos).isValid gs = false) :
    ∃ gs1, newRound gs draws = .ok (gs1, draws) ∧
      gs1.round = wrapUint (gs.round + 1) ∧
      (gs.round + 1 < 18446744073709551616 → gs1.round = gs.round + 1) ∧
      gs1.score = gs.score ∧ gs1.desiredSnakeLen = gs.desiredSnakeLen ∧
      gs1.snakeHead = gs.snakeHead ∧ gs1.board = gs.board ∧ gs1.cancelled = gs.cancelled ∧
      gs1.userAction = gs.userAction ∧ gs1.boardWidth = gs.boardWidth ∧
      gs1.boardHeight = gs.boardHeight :=
  ⟨{ gs with round := wrapUint (gs.round + 1) }, newRound_invalid gs draws pos nextField hs hv,
    rfl, fun h => wrapUint_eq_self _ h, rfl, rfl, rfl, rfl, rfl, rfl, rfl, rfl⟩

/-- C18 without the round counter fails at `headOutside`: the head `(20,3)` is outside the 10x10
board, the prospective head `(20,2)` fails `isValid`, and the call returns with
`round` 6 instead of 5, so not every listed field is unchanged. -/
theorem newRound_guard_counts_round :
    headOutside.snakeHead = [⟨20, 3⟩, ⟨20, 4⟩] ∧
    (movedHead headOutside ⟨20, 3⟩).isValid headOutside = false ∧
    ¬ (∀ gs1 draws1, newRound headOutside [] = .ok (gs1, draws1) →
        gs1.round = headOutside.round ∧ gs1.score = headOutside.score ∧
        gs1.desiredSnakeLen = headOutside.desiredSnakeLen ∧
        gs1.snakeHead = headOutside.snakeHead ∧ gs1.board = headOutside.board ∧
        gs1.cancelled = headOutside.cancelled) := by
  refine ⟨rfl, by with_unfolding_all decide, fun h => ?_⟩
  have h1 := (h { headOutside with round := 6 } [] (by with_unfolding_all decide)).1
  revert h1
  decide

/-- C18, with the round counter, at `headOutside`: `round` goes from 5 to 6. -/
theorem newRound_guard_witness :
    headOutside.snakeHead = [⟨20, 3⟩, ⟨20, 4⟩] ∧
    (movedHead headOutside ⟨20, 3⟩).isValid headOutside = false ∧
    ∃ gs1, newRound headOutside [] = .ok (gs1, []) ∧
      gs1.round = wrapUint (headOutside.round + 1) ∧
      (headOutside.round + 1 < 18446744073709551616 → gs1.round = headOutside.round + 1) ∧
      gs1.score = headOutside.score ∧ gs1.desiredSnakeLen = headOutside.desiredSnakeLen ∧
      gs1.snakeHead = headOutside.snakeHead ∧ gs1.board = headOutside.board ∧
      gs1.cancelled = headOutside.cancelled ∧
      gs1.userAction = headOutside.userAction ∧ gs1.boardWidth = headOutside.boardWidth ∧
      gs1.boardHeight = headOutside.boardHeight :=
  ⟨rfl, by with_unfolding_all decide,
    newRound_guard headOutside [] ⟨20, 3⟩ [⟨20, 4⟩] rfl (by with_unfolding_all decide)⟩


/-! ## C15: the guard is unreachable and the board accesses are in range -/

lemma uintToInt_le_cast (n : Nat) : uintToInt n ≤ (n : Int) := by
  unfold uintToInt
  split_ifs <;> omega

lemma boardGet_of_shape (gs : gameState) (p : point2d) (hsh : boardShape gs)
    (hv : p.isValid gs = true) : ∃ c, boardGet gs.board p = some c := by
  rw [isValid_iff] at hv
  obtain ⟨hx, hy, hx0, hy0⟩ := hv
  obtain ⟨hlen, hcols⟩ := hsh
  have hw := uintToInt_le_cast gs.boardWidth
  have hh := uintToInt_le_cast gs.boardHeight
  have hxl : p.x.toNat < gs.board.length := by
    rw [hlen]
    omega
  rw [boardGet_eq gs.board p hx0 hy0, List.getElem?_eq_getElem hxl]
  have hcol := hcols _ (List.getElem_mem hxl)
  have hyl : p.y.toNat < (gs.board[p.x.toNat]).length := by
    rw [hcol]
    omega
  exact ⟨(gs.board[p.x.toNat])[p.y.toNat], by simp [List.getElem?_eq_getElem hyl]⟩

lemma mem_tailMoved (chain : List point2d) (d : Nat) (q : point2d)
    (h : q ∈ tailMoved chain d) : q ∈ chain := by
  unfold tailMoved at h
  split_ifs at h
  · exact List.mem_of_mem_dropLast h
  · exact h

lemma newRound_chain_subset (gs : gameState) (draws : List point2d) (gs1 : gameState)
    (draws1 : List point2d) (h : newRound gs draws = .ok (gs1, draws1)) :
    ∃ pos nextField, gs.snakeHead = pos :: nextField ∧
      ((gs1.snakeHead = gs.snakeHead) ∨
       ((movedHead gs pos).isValid gs = true ∧ movedHead gs pos ∉ gs.snakeHead ∧
         gs1.snakeHead = tailMoved (movedHead gs pos :: gs.snakeHead) gs1.desiredSnakeLen)) := by
  obtain ⟨pos, nextField, hs, _, _, _, _, hc⟩ := newRound_fields gs draws gs1 draws1 h
  refine ⟨pos, nextField, hs, ?_⟩
  rcases hc with ⟨h1, _⟩ | ⟨hv, hm, _, _, _, _, h1, _⟩ | ⟨hv, hm, _, _, _, _, _, _, h1⟩
  · exact Or.inl h1
  · exact Or.inr ⟨hv, hm, h1⟩
  · exact Or.inr ⟨hv, hm, h1⟩

/-- C15. With the head in bounds, for every value of `userAction` the
prospective head after the wrap satisfies `isValid`, so `newRound` passes the
guard and goes on with the lookup; on a board with the slices `init` made, the
read and the write of `board[x][y]` at the new head are in range and the
lookup returns; and when every node is in bounds before a returning round,
every node is in bounds after it. -/
theorem guard_unreachable (gs : gameState) (pos : point2d) (nextField : List point2d)
    (hs : gs.snakeHead = pos :: nextField) (hv : pos.isValid gs = true) :
    (movedHead gs pos).isValid gs = true ∧
    (∀ draws f b, getField gs (movedHead gs pos) = .ok (f, b) →
      newRound gs draws =
        if f = fieldSnake then
          .ok ({ gs with round := wrapUint (gs.round + 1), cancelled := true }, draws)
        else commitMove { gs with round := wrapUint (gs.round + 1) } (movedHead gs pos) draws) ∧
    (boardShape gs →
      (∃ c, boardGet gs.board (movedHead gs pos) = some c) ∧
      (∃ b, boardSet gs.board (movedHead gs pos) fieldEmpty = some b) ∧
      (∃ f, getField gs (movedHead gs pos) = .ok (f, true))) ∧
    (∀ draws gs1 draws1, newRound gs draws = .ok (gs1, draws1) →
      (∀ q ∈ gs.snakeHead, q.isValid gs = true) →
      ∀ q ∈ gs1.snakeHead, q.isValid gs1 = true) := by
  have hv2 := movedHead_isValid gs pos hv
  refine ⟨hv2, fun draws f b hg => newRound_valid gs draws pos nextField hs hv2 f b hg,
    fun hsh => ?_, fun draws gs1 draws1 h hall q hq => ?_⟩
  · obtain ⟨c, hc⟩ := boardGet_of_shape gs _ hsh hv2
    refine ⟨⟨c, hc⟩, boardSet_of_boardGet gs.board _ fieldEmpty c hc, ?_⟩
    by_cases hm : movedHead gs pos ∈ gs.snakeHead
    · exact ⟨fieldSnake, getField_of_mem gs _ hv2 hm⟩
    · exact ⟨c, by rw [getField_free gs _ hv2 hm, hc]⟩
  · obtain ⟨_, _, _, _, _, hw, hh, _⟩ := newRound_fields gs draws gs1 draws1 h
    rw [isValid_congr gs1 gs hw hh]
    obtain ⟨pos1, nf1, hs1, hc⟩ := newRound_chain_subset gs draws gs1 draws1 h
    have hpos : pos1 = pos := by
      rw [hs] at hs1
      injection hs1 with e _
      exact e.symm
    subst hpos
    rcases hc with h1 | ⟨_, _, h1⟩
    · rw [h1] at hq
      exact hall q hq
    · rw [h1] at hq
      have hq2 := mem_tailMoved _ _ q hq
      rcases List.mem_cons.1 hq2 with e | hq3
      · rw [e]
        exact hv2
      · exact hall q hq3

/-- C15 on the plain move from `foodAbove 2`. -/
theorem guard_unreachable_witness :
    (⟨5, 4⟩ : point2d).isValid (foodAbove 2) = true ∧ boardShape (foodAbove 2) ∧
    (movedHead (foodAbove 2) ⟨5, 4⟩).isValid (foodAbove 2) = true ∧
    boardGet (foodAbove 2).board (movedHead (foodAbove 2) ⟨5, 4⟩) = some fieldEmpty ∧
    newRound (foodAbove 2) [] = .ok (movedUp, []) ∧
    ∀ q ∈ movedUp.snakeHead, q.isValid movedUp = true :=
  ⟨by with_unfolding_all decide, by decide,
    (guard_unreachable (foodAbove 2) ⟨5, 4⟩ [⟨5, 5⟩, ⟨5, 6⟩] (by with_unfolding_all decide)
      (by with_unfolding_all decide)).1,
    by with_unfolding_all decide, by with_unfolding_all decide,
    (guard_unreachable (foodAbove 2) ⟨5, 4⟩ [⟨5, 5⟩, ⟨5, 6⟩] (by with_unfolding_all decide)
      (by with_unfolding_all decide)).2.2.2 [] movedUp [] (by with_unfolding_all decide)
      (by with_unfolding_all decide)⟩


/-! ## C16: the tail drop -/

/-- C16. In `newRound` the last statement runs on the chain made of the new
head and the old chain, which has two nodes or more: `beforeLast` returns a
node, never `nil`, and the statement never faults. When `count` exceeds
`desiredSnakeLen`, the chain becomes the previous chain without its last node,
and both its length and its `count` go down by exactly 1. -/
theorem tail_drop_safe (gs : gameState) (newPos : point2d) (draws : List point2d)
    (gs2 : gameState) (draws2 : List point2d) (pos : point2d) (nextField : List point2d)
    (hs : gs.snakeHead = pos :: nextField)
    (hp : pickUp { gs with snakeHead := newPos :: gs.snakeHead } newPos draws = .ok (gs2, draws2)) :
    gs2.snakeHead = newPos :: pos :: nextField ∧
    beforeLast newPos (pos :: nextField) = some nextField.length ∧
    (∃ gs3, moveTail gs2 = .ok gs3) ∧
    (count newPos (pos :: nextField) > gs2.desiredSnakeLen →
      moveTail gs2 = .ok { gs2 with snakeHead := (newPos :: pos :: nextField).dropLast } ∧
      commitMove gs newPos draws =
        .ok ({ gs2 with snakeHead := (newPos :: pos :: nextField).dropLast }, draws2) ∧
      (newPos :: pos :: nextField).dropLast = newPos :: (pos :: nextField).dropLast ∧
      ((newPos :: pos :: nextField).dropLast).length + 1 = (newPos :: pos :: nextField).length ∧
      count newPos ((pos :: nextField).dropLast) + 1 = count newPos (pos :: nextField)) := by
  have hs2 : gs2.snakeHead = newPos :: pos :: nextField := by
    rw [pickUp_snakeHead _ _ _ _ _ hp]
    dsimp only
    rw [hs]
  refine ⟨hs2, beforeLast_cons newPos pos nextField,
    ⟨_, moveTail_two gs2 newPos pos nextField hs2⟩, fun hc => ?_⟩
  rw [count_eq, List.length_cons] at hc
  have hm := moveTail_drop gs2 newPos pos nextField hs2 hc
  refine ⟨hm, ?_, rfl, ?_, ?_⟩
  · unfold commitMove
    rw [hp]
    dsimp only
    rw [hm]
  · rw [List.length_dropLast]
    rfl
  · rw [count_eq, count_eq, List.length_dropLast, List.length_cons]
    omega

/-- C16 on the plain move from `foodAbove 2`: four nodes after the commit,
three after the tail drop. -/
theorem tail_drop_safe_witness :
    pickUp { foodAbove 2 with round := 1, snakeHead := ⟨5, 3⟩ :: (foodAbove 2).snakeHead }
        ⟨5, 3⟩ []
      = .ok ({ foodAbove 2 with round := 1,
                                snakeHead := [⟨5, 3⟩, ⟨5, 4⟩, ⟨5, 5⟩, ⟨5, 6⟩] }, []) ∧
    count ⟨5, 3⟩ [⟨5, 4⟩, ⟨5, 5⟩, ⟨5, 6⟩] = 4 ∧
    count ⟨5, 3⟩ [⟨5, 4⟩, ⟨5, 5⟩] = 3 ∧
    commitMove { foodAbove 2 with round := 1 } ⟨5, 3⟩ [] = .ok (movedUp, []) := by
  have hp : pickUp { foodAbove 2 with round := 1, snakeHead := ⟨5, 3⟩ :: (foodAbove 2).snakeHead }
        ⟨5, 3⟩ []
      = .ok ({ foodAbove 2 with round := 1,
                                snakeHead := [⟨5, 3⟩, ⟨5, 4⟩, ⟨5, 5⟩, ⟨5, 6⟩] }, []) := by
    with_unfolding_all decide
  have h := (tail_drop_safe { foodAbove 2 with round := 1 } ⟨5, 3⟩ [] _ [] ⟨5, 4⟩
    [⟨5, 5⟩, ⟨5, 6⟩] (by with_unfolding_all decide) hp).2.2.2 (by with_unfolding_all decide)
  exact ⟨hp, by with_unfolding_all decide, by with_unfolding_all decide, h.2.1⟩


/-! ## The start of `main` -/

lemma uintToInt_inj (a b : Nat) (h : uintToInt a = uintToInt b) :
    a % 18446744073709551616 = b % 18446744073709551616 := by
  unfold uintToInt at h
  split_ifs at h <;> omega

lemma mainState_snakeHead (w h : Nat) :
    (mainState w h).snakeHead =
      [⟨uintToInt (w / 2), uintToInt (uintSub (h / 2) 1)⟩,
       ⟨uintToInt (w / 2), uintToInt (h / 2)⟩,
       ⟨uintToInt (w / 2), uintToInt (wrapUint (h / 2 + 1))⟩] := rfl

lemma mainState_nodup (w h : Nat) : (mainState w h).snakeHead.Nodup := by
  rw [mainState_snakeHead]
  have h1 : uintToInt (uintSub (h / 2) 1) ≠ uintToInt (h / 2) := by
    intro e
    have := uintToInt_inj _ _ e
    unfold uintSub at this
    omega
  have h2 : uintToInt (uintSub (h / 2) 1) ≠ uintToInt (wrapUint (h / 2 + 1)) := by
    intro e
    have := uintToInt_inj _ _ e
    unfold uintSub wrapUint at this
    omega
  have h3 : uintToInt (h / 2) ≠ uintToInt (wrapUint (h / 2 + 1)) := by
    intro e
    have := uintToInt_inj _ _ e
    unfold wrapUint at this
    omega
  simp only [List.nodup_cons, List.mem_cons, List.mem_singleton, point2d.mk.injEq, true_and,
    List.not_mem_nil, not_false_eq_true, List.nodup_nil, and_true, not_or, or_false]
  exact ⟨⟨h1, h2⟩, h3⟩

/-! ## C11: no self-overlap -/

lemma tailMoved_nodup (chain : List point2d) (d : Nat) (h : chain.Nodup) :
    (tailMoved chain d).Nodup := by
  unfold tailMoved
  split_ifs
  · exact h.sublist (List.dropLast_sublist chain)
  · exact h

lemma newRound_nodup (gs : gameState) (draws : List point2d) (gs1 : gameState)
    (draws1 : List point2d) (hn : gs.snakeHead.Nodup)
    (h : newRound gs draws = .ok (gs1, draws1)) : gs1.snakeHead.Nodup := by
  obtain ⟨pos, nextField, _, hc⟩ := newRound_chain_subset gs draws gs1 draws1 h
  rcases hc with h1 | ⟨_, hm, h1⟩
  · rw [h1]
    exact hn
  · rw [h1]
    exact tailMoved_nodup _ _ (List.nodup_cons.2 ⟨hm, hn⟩)

/-- C11. A returning `newRound` keeps the positions of the chain pairwise
distinct when they were so before (and in bounds): the prospective head is
looked up against the whole chain before it is committed. Hence the chain has
no duplicate position in any state the running game reaches from the start of
`main`, through any key events and rounds, before and after the flag is set. -/
theorem no_self_overlap :
    (∀ (gs : gameState) (draws : List point2d) (gs1 : gameState) (draws1 : List point2d),
      gs.snakeHead.Nodup → (∀ q ∈ gs.snakeHead, q.isValid gs = true) →
      newRound gs draws = .ok (gs1, draws1) → gs1.snakeHead.Nodup) ∧
    (∀ (w h : Nat) (draws : List point2d) (gs0 : gameState) (draws0 : List point2d)
      (gs : gameState),
      newFood (mainState w h) draws = .ok (gs0, draws0) → Reach gs0 gs →
      gs.snakeHead.Nodup) := by
  refine ⟨fun gs draws gs1 draws1 hn _ h => newRound_nodup gs draws gs1 draws1 hn h, ?_⟩
  intro w h draws gs0 draws0 gs h0 hr
  induction hr with
  | start =>
    obtain ⟨_, _, _, _, _, hs, _, _⟩ := newFood_frame _ _ _ _ h0
    rw [hs]
    exact mainState_nodup w h
  | listen gs events _ ih =>
    obtain ⟨_, _, _, _, _, _, hs⟩ := keyPressListener_sameGame gs events
    rw [hs]
    exact ih
  | pending gs ev _ ih =>
    obtain ⟨_, _, _, _, _, _, hs⟩ := onEvent_sameGame gs ev
    rw [hs]
    exact ih
  | tick gs gs1 d d1 _ hstep ih =>
    exact newRound_nodup gs d gs1 d1 ih hstep

/-- C11 on a run of `main`: food drawn at `(5,2)`, one round Up. Also on the run
that collides, handles the key Left after the flag was set and plays one more round. -/
theorem no_self_overlap_witness :
    newFood (mainState 10 10) [⟨5, 2⟩] = .ok (foodAbove 2, []) ∧
    newRound (foodAbove 2) [] = .ok (movedUp, []) ∧
    movedUp.snakeHead = [⟨5, 3⟩, ⟨5, 4⟩, ⟨5, 5⟩] ∧
    movedUp.snakeHead.Nodup ∧
    roundAfterCancel.cancelled = true ∧ roundAfterCancel.snakeHead.Nodup :=
  ⟨by with_unfolding_all decide, by with_unfolding_all decide, rfl,
    no_self_overlap.2 10 10 [⟨5, 2⟩] (foodAbove 2) [] movedUp (by with_unfolding_all decide)
      (Reach.tick (foodAbove 2) movedUp [] [] Reach.start (by with_unfolding_all decide)),
    rfl,
    no_self_overlap.2 10 10 [⟨5, 3⟩] (foodAbove 1) [] roundAfterCancel
      (by with_unfolding_all decide) reach_roundAfterCancel⟩


/-! ## C12: food is never under the snake -/

lemma boardGet_mem (b : List (List field)) (p : point2d) (c : field)
    (h : boardGet b p = some c) : ∃ col ∈ b, c ∈ col := by
  unfold boardGet at h
  split_ifs at h
  cases hc : b[p.x.toNat]? with
  | none => rw [hc] at h; cases h
  | some col =>
    rw [hc] at h
    dsimp only at h
    exact ⟨col, List.getElem?_mem hc, List.getElem?_mem h⟩

lemma mainState_board_empty (w h : Nat) :
    ∀ col ∈ (mainState w h).board, ∀ c ∈ col, c = fieldEmpty := by
  intro col hcol c hc
  have hb : (mainState w h).board = List.replicate w (List.replicate h 0) := rfl
  rw [hb] at hcol
  rw [(List.mem_replicate.1 hcol).2] at hc
  exact (List.mem_replicate.1 hc).2

lemma foodFree_of_empty (gs : gameState)
    (he : ∀ col ∈ gs.board, ∀ c ∈ col, c = fieldEmpty) : foodFreeOfSnake gs := by
  intro p _ hp
  obtain ⟨col, hcol, hc⟩ := boardGet_mem gs.board p fieldFood hp
  exact absurd (he col hcol _ hc) (by decide)

lemma newFood_foodFree (gs : gameState) (draws : List point2d) (gs1 : gameState)
    (draws1 : List point2d) (hf : foodFreeOfSnake gs)
    (h : newFood gs draws = .ok (gs1, draws1)) : foodFreeOfSnake gs1 := by
  obtain ⟨p, _, _, hm, hbs, _⟩ := newFood_ok gs draws gs1 draws1 h
  obtain ⟨_, _, _, _, _, hs, _, _⟩ := newFood_frame gs draws gs1 draws1 h
  intro q hq
  rw [hs] at hq
  have hne : q ≠ p := fun e => hm (e ▸ hq)
  rw [boardGet_boardSet_ne _ _ _ _ _ hbs hne]
  exact hf q hq

lemma newRound_foodFree (gs : gameState) (draws : List point2d) (gs1 : gameState)
    (draws1 : List point2d) (hf : foodFreeOfSnake gs)
    (h : newRound gs draws = .ok (gs1, draws1)) : foodFreeOfSnake gs1 := by
  obtain ⟨pos, nextField, _, _, _, _, _, hc⟩ := newRound_fields gs draws gs1 draws1 h
  rcases hc with ⟨hs, _, _, hb⟩ | ⟨_, _, _, _, _, _, hs, b, p, hb, _, hpm, hbs⟩ |
    ⟨_, _, ⟨c, hc, hcf, _⟩, _, _, hb, _, _, hs⟩
  · intro q hq
    rw [hs] at hq
    rw [hb]
    exact hf q hq
  · intro q hq
    rw [hs] at hq
    have hq2 := mem_tailMoved _ _ q hq
    have hne : q ≠ p := fun e => hpm (e ▸ hq2)
    rw [boardGet_boardSet_ne _ _ _ _ _ hbs hne]
    rcases List.mem_cons.1 hq2 with e | hq3
    · rw [e, boardGet_boardSet_same _ _ _ _ hb]
      decide
    · by_cases e : q = movedHead gs pos
      · rw [e, boardGet_boardSet_same _ _ _ _ hb]
        decide
      · rw [boardGet_boardSet_ne _ _ _ _ _ hb e]
        exact hf q hq3
  · intro q hq
    rw [hs] at hq
    have hq2 := mem_tailMoved _ _ q hq
    rw [hb]
    rcases List.mem_cons.1 hq2 with e | hq3
    · rw [e, hc]
      intro e2
      injection e2 with e2
      exact hcf e2
    · exact hf q hq3

/-- C12. The invariant that no cell storing `fieldFood` is the position of a
node is kept by every returning `newRound` and by every returning `newFood`;
hence it holds in every state the running game reaches from the start of
`main` (initial chain, empty board, one `newFood`), through any key events and
rounds, before and after the flag is set. -/
theorem food_never_under_snake :
    (∀ (gs : gameState) (draws : List point2d) (gs1 : gameState) (draws1 : List point2d),
      foodFreeOfSnake gs → newRound gs draws = .ok (gs1, draws1) → foodFreeOfSnake gs1) ∧
    (∀ (gs : gameState) (draws : List point2d) (gs1 : gameState) (draws1 : List point2d),
      foodFreeOfSnake gs → newFood gs draws = .ok (gs1, draws1) → foodFreeOfSnake gs1) ∧
    (∀ (w h : Nat) (draws : List point2d) (gs0 : gameState) (draws0 : List point2d)
      (gs : gameState),
      newFood (mainState w h) draws = .ok (gs0, draws0) → Reach gs0 gs →
      foodFreeOfSnake gs) := by
  refine ⟨fun gs draws gs1 draws1 hf h => newRound_foodFree gs draws gs1 draws1 hf h,
    fun gs draws gs1 draws1 hf h => newFood_foodFree gs draws gs1 draws1 hf h, ?_⟩
  intro w h draws gs0 draws0 gs h0 hr
  induction hr with
  | start =>
    exact newFood_foodFree _ _ _ _ (foodFree_of_empty _ (mainState_board_empty w h)) h0
  | listen gs events _ ih =>
    obtain ⟨hb, _, _, _, _, _, hs⟩ := keyPressListener_sameGame gs events
    intro q hq
    rw [hs] at hq
    rw [hb]
    exact ih q hq
  | pending gs ev _ ih =>
    obtain ⟨hb, _, _, _, _, _, hs⟩ := onEvent_sameGame gs ev
    intro q hq
    rw [hs] at hq
    rw [hb]
    exact ih q hq
  | tick gs gs1 d d1 _ hstep ih =>
    exact newRound_foodFree gs d gs1 d1 ih hstep

/-- C12 on a run of `main`: food drawn at `(5,3)`, eaten in the first round,
respawned at `(0,0)`, away from the four nodes. Also on the run
that collides, handles the key Left after the flag was set and plays one more round. -/
theorem food_never_under_snake_witness :
    newFood (mainState 10 10) [⟨5, 3⟩] = .ok (foodAbove 1, []) ∧
    newRound (foodAbove 1) [⟨0, 0⟩] = .ok (hasEaten 1, []) ∧
    boardGet (hasEaten 1).board ⟨0, 0⟩ = some fieldFood ∧
    foodFreeOfSnake (hasEaten 1) ∧
    roundAfterCancel.cancelled = true ∧ foodFreeOfSnake roundAfterCancel :=
  ⟨by with_unfolding_all decide, by with_unfolding_all decide, by decide,
    food_never_under_snake.2.2 10 10 [⟨5, 3⟩] (foodAbove 1) [] (hasEaten 1)
      (by with_unfolding_all decide)
      (Reach.tick (foodAbove 1) (hasEaten 1) [⟨0, 0⟩] [] Reach.start
        (by with_unfolding_all decide)),
    rfl,
    food_never_under_snake.2.2 10 10 [⟨5, 3⟩] (foodAbove 1) [] roundAfterCancel
      (by with_unfolding_all decide) reach_roundAfterCancel⟩


/-! ## The cells of the board -/

lemma gridCells_boardSet (b : List (List field)) (p : point2d) (v : field)
    (b1 : List (List field)) (hs : boardSet b p v = some b1) (hg : gridCells b)
    (hv : v = fieldEmpty ∨ v = fieldFood) : gridCells b1 := by
  obtain ⟨_, _, col, hcol, _, rfl⟩ := boardSet_eq_some b p v b1 hs
  intro col1 hcol1 c hc
  rcases List.mem_or_eq_of_mem_set hcol1 with hm | he
  · exact hg col1 hm c hc
  · rw [he] at hc
    rcases List.mem_or_eq_of_mem_set hc with hm2 | he2
    · exact hg col (List.getElem?_mem hcol) c hm2
    · rw [he2]
      exact hv

lemma gridCells_of_empty (b : List (List field))
    (he : ∀ col ∈ b, ∀ c ∈ col, c = fieldEmpty) : gridCells b :=
  fun col hcol c hc => Or.inl (he col hcol c hc)

lemma newFood_gridCells (gs : gameState) (draws : List point2d) (gs1 : gameState)
    (draws1 : List point2d) (hg : gridCells gs.board)
    (h : newFood gs draws = .ok (gs1, draws1)) : gridCells gs1.board := by
  obtain ⟨p, _, _, _, hbs, _⟩ := newFood_ok gs draws gs1 draws1 h
  exact gridCells_boardSet _ p _ _ hbs hg (Or.inr rfl)

lemma newRound_gridCells (gs : gameState) (draws : List point2d) (gs1 : gameState)
    (draws1 : List point2d) (hg : gridCells gs.board)
    (h : newRound gs draws = .ok (gs1, draws1)) : gridCells gs1.board := by
  obtain ⟨pos, nextField, _, _, _, _, _, hc⟩ := newRound_fields gs draws gs1 draws1 h
  rcases hc with ⟨_, _, _, hb⟩ | ⟨_, _, _, _, _, _, _, b, p, hb, _, _, hbs⟩ |
    ⟨_, _, _, _, _, hb, _⟩
  · rw [hb]
    exact hg
  · exact gridCells_boardSet _ p _ _ hbs
      (gridCells_boardSet _ _ _ _ hb hg (Or.inl rfl)) (Or.inr rfl)
  · rw [hb]
    exact hg

/-- In every state the running game reaches the board stores grid states only. -/
lemma reach_gridCells (w h : Nat) (draws : List point2d) (gs0 : gameState)
    (draws0 : List point2d) (gs : gameState)
    (h0 : newFood (mainState w h) draws = .ok (gs0, draws0)) (hr : Reach gs0 gs) :
    gridCells gs.board := by
  induction hr with
  | start =>
    exact newFood_gridCells _ _ _ _ (gridCells_of_empty _ (mainState_board_empty w h)) h0
  | listen gs events _ ih =>
    obtain ⟨hb, _⟩ := keyPressListener_sameGame gs events
    rw [hb]
    exact ih
  | pending gs ev _ ih =>
    obtain ⟨hb, _⟩ := onEvent_sameGame gs ev
    rw [hb]
    exact ih
  | tick gs gs1 d d1 _ hstep ih =>
    exact newRound_gridCells gs d gs1 d1 ih hstep

lemma gridCells_boardGet (b : List (List field)) (p : point2d) (c : field) (hg : gridCells b)
    (h : boardGet b p = some c) : c = fieldEmpty ∨ c = fieldFood := by
  obtain ⟨col, hcol, hc⟩ := boardGet_mem b p c h
  exact hg col hcol c hc

/-! ## C14: plain move -/

lemma tailMoved_drop (a b : point2d) (l : List point2d) (d : Nat)
    (h : (l.length + 1 + 1) % 18446744073709551616 > d) :
    tailMoved (a :: b :: l) d = a :: (b :: l).dropLast := by
  unfold tailMoved
  rw [List.length_cons, List.length_cons, if_pos h]
  rfl

lemma tailMoved_keep (chain : List point2d) (d : Nat)
    (h : ¬ chain.length % 18446744073709551616 > d) : tailMoved chain d = chain := by
  unfold tailMoved
  rw [if_neg h]

/-- C14. In a state whose nodes are all in bounds, whose chain is as long as
`desiredSnakeLen` (a target the `uint` counter can still exceed by one) and whose board
stores grid states only, when no node lies on the prospective head and its cell does not
store `fieldFood`, `newRound` returns without consuming a draw: the chain becomes the new
head followed by the old chain without its last node, as long as before, `round` goes up
by one, and every other field is the one of the state before. -/
theorem newRound_plain (gs : gameState) (draws : List point2d) (pos : point2d)
    (nextField : List point2d) (hs : gs.snakeHead = pos :: nextField)
    (hin : ∀ q ∈ gs.snakeHead, q.isValid gs = true)
    (hlen : gs.snakeHead.length = gs.desiredSnakeLen)
    (hd : gs.desiredSnakeLen + 1 < 18446744073709551616)
    (hfree : movedHead gs pos ∉ gs.snakeHead)
    (c : field) (hcell : boardGet gs.board (movedHead gs pos) = some c)
    (hfood : c ≠ fieldFood) (hgrid : gridCells gs.board) :
    getField gs (movedHead gs pos) = .ok (c, true) ∧
    newRound gs draws =
      .ok ({ gs with round := wrapUint (gs.round + 1),
                     snakeHead := movedHead gs pos :: (pos :: nextField).dropLast }, draws) ∧
    (movedHead gs pos :: (pos :: nextField).dropLast).length = gs.snakeHead.length ∧
    (gs.round + 1 < 18446744073709551616 → wrapUint (gs.round + 1) = gs.round + 1) := by
  have hhead : pos.isValid gs = true := hin pos (by rw [hs]; exact List.mem_cons_self _ _)
  have hv2 := movedHead_isValid gs pos hhead
  have hlook : getField gs (movedHead gs pos) = .ok (c, true) := by
    rw [getField_free gs _ hv2 hfree, hcell]
  have hocc : c ≠ fieldSnake := by
    rcases gridCells_boardGet gs.board _ c hgrid hcell with e | e
    · rw [e]
      decide
    · exact absurd e hfood
  refine ⟨hlook, ?_, ?_, fun h => wrapUint_eq_self _ h⟩
  · rw [newRound_valid gs draws pos nextField hs hv2 c true hlook, if_neg hocc]
    have hp := pickUp_plain
      { gs with round := wrapUint (gs.round + 1), snakeHead := movedHead gs pos :: gs.snakeHead }
      (movedHead gs pos) draws c hcell hfood
    rw [commitMove_returns { gs with round := wrapUint (gs.round + 1) } _ _ _ _ pos nextField hs hp]
    have hgt : (nextField.length + 1 + 1) % 18446744073709551616 > gs.desiredSnakeLen := by
      rw [hs, List.length_cons] at hlen
      omega
    have ht : tailMoved (movedHead gs pos :: gs.snakeHead) gs.desiredSnakeLen
        = movedHead gs pos :: (pos :: nextField).dropLast := by
      rw [hs]
      exact tailMoved_drop _ _ _ _ hgt
    dsimp only
    rw [ht]
  · rw [List.length_cons, List.length_dropLast, hs]
    rfl

/-- C14 at the opening position of a 10 by 10 board with the food two cells above the head:
one round upwards moves the three nodes one cell up. -/
theorem newRound_plain_witness :
    movedHead (foodAbove 2) ⟨5, 4⟩ = ⟨5, 3⟩ ∧
    getField (foodAbove 2) (movedHead (foodAbove 2) ⟨5, 4⟩) = .ok (fieldEmpty, true) ∧
    newRound (foodAbove 2) [] =
      .ok ({ foodAbove 2 with round := wrapUint ((foodAbove 2).round + 1),
                              snakeHead := movedHead (foodAbove 2) ⟨5, 4⟩ ::
                                ([⟨5, 4⟩, ⟨5, 5⟩, ⟨5, 6⟩] : List point2d).dropLast }, []) ∧
    (movedHead (foodAbove 2) ⟨5, 4⟩ :: ([⟨5, 4⟩, ⟨5, 5⟩, ⟨5, 6⟩] : List point2d).dropLast).length
      = (foodAbove 2).snakeHead.length ∧
    ((foodAbove 2).round + 1 < 18446744073709551616 →
      wrapUint ((foodAbove 2).round + 1) = (foodAbove 2).round + 1) :=
  ⟨by with_unfolding_all decide,
    newRound_plain (foodAbove 2) [] ⟨5, 4⟩ [⟨5, 5⟩, ⟨5, 6⟩] (by with_unfolding_all decide)
      (by with_unfolding_all decide) (by with_unfolding_all decide) (by decide)
      (by with_unfolding_all decide) fieldEmpty (by with_unfolding_all decide) (by decide)
      (by with_unfolding_all decide)⟩

/-! ## C13: the snake `main` builds -/

/-- A returning round onto a free cell that stores neither `fieldFood` nor `fieldSnake`
consumes no draw and changes `round` and the chain only. -/
lemma newRound_free_cell (gs : gameState) (draws : List point2d) (pos : point2d)
    (nextField : List point2d) (hs : gs.snakeHead = pos :: nextField)
    (hv : (movedHead gs pos).isValid gs = true) (hfree : movedHead gs pos ∉ gs.snakeHead)
    (c : field) (hcell : boardGet gs.board (movedHead gs pos) = some c)
    (hfood : c ≠ fieldFood) (hocc : c ≠ fieldSnake) :
    newRound gs draws =
      .ok ({ gs with round := wrapUint (gs.round + 1),
                     snakeHead := tailMoved (movedHead gs pos :: gs.snakeHead) gs.desiredSnakeLen },
        draws) := by
  have hlook : getField gs (movedHead gs pos) = .ok (c, true) := by
    rw [getField_free gs _ hv hfree, hcell]
  rw [newRound_valid gs draws pos nextField hs hv c true hlook, if_neg hocc]
  have hp := pickUp_plain
    { gs with round := wrapUint (gs.round + 1), snakeHead := movedHead gs pos :: gs.snakeHead }
    (movedHead gs pos) draws c hcell hfood
  rw [commitMove_returns { gs with round := wrapUint (gs.round + 1) } _ _ _ _ pos nextField hs hp]

/-- What a returning round does once the lookup at the prospective head has answered
something other than `fieldSnake`. -/
lemma newRound_move (gs : gameState) (draws : List point2d) (gs1 : gameState)
    (draws1 : List point2d) (pos : point2d) (nextField : List point2d)
    (hs : gs.snakeHead = pos :: nextField) (hv : (movedHead gs pos).isValid gs = true)
    (f : field) (hg : getField gs (movedHead gs pos) = .ok (f, true)) (hf : f ≠ fieldSnake)
    (h : newRound gs draws = .ok (gs1, draws1)) :
    gs1.cancelled = gs.cancelled ∧
    gs1.snakeHead = tailMoved (movedHead gs pos :: gs.snakeHead) gs1.desiredSnakeLen ∧
    (gs1.desiredSnakeLen = gs.desiredSnakeLen ∨
      gs1.desiredSnakeLen = wrapUint (gs.desiredSnakeLen + 1)) := by
  rw [newRound_valid gs draws pos nextField hs hv f true hg, if_neg hf] at h
  obtain ⟨gs2, hp, hgs1⟩ := commitMove_cases { gs with round := wrapUint (gs.round + 1) }
    (movedHead gs pos) draws gs1 draws1 pos nextField hs h
  have c1 : gs1.cancelled = gs2.cancelled := by
    have e := congrArg gameState.cancelled hgs1
    exact e
  have d1 : gs1.desiredSnakeLen = gs2.desiredSnakeLen := by
    have e := congrArg gameState.desiredSnakeLen hgs1
    exact e
  have s1 : gs1.snakeHead = tailMoved (movedHead gs pos :: gs.snakeHead) gs2.desiredSnakeLen := by
    have e := congrArg gameState.snakeHead hgs1
    exact e
  rw [← d1] at s1
  rcases pickUp_cases _ _ _ _ _ hp with ⟨_, b, p, _, _, _, _, hgs2⟩ | ⟨c, _, _, hgs2, _⟩
  · have c2 : gs2.cancelled = gs.cancelled := by
      have e := congrArg gameState.cancelled hgs2
      exact e
    have d2 : gs2.desiredSnakeLen = wrapUint (gs.desiredSnakeLen + 1) := by
      have e := congrArg gameState.desiredSnakeLen hgs2
      exact e
    exact ⟨c1.trans c2, s1, Or.inr (d1.trans d2)⟩
  · have c2 : gs2.cancelled = gs.cancelled := by rw [hgs2]
    have d2 : gs2.desiredSnakeLen = gs.desiredSnakeLen := by rw [hgs2]
    exact ⟨c1.trans c2, s1, Or.inl (d1.trans d2)⟩

lemma mainState_shape (w h : Nat) : boardShape (mainState w h) := by
  have hb : (mainState w h).board = List.replicate w (List.replicate h 0) := rfl
  refine ⟨?_, ?_⟩
  · rw [hb, List.length_replicate]
    rfl
  · intro col hcol
    rw [hb] at hcol
    rw [(List.mem_replicate.1 hcol).2, List.length_replicate]
    rfl

/-- The three nodes `main` links, for dimensions that `menu` read as values of `int`. -/
lemma mainState_start (w h : Nat) (hh : 5 ≤ h) (hwi : w < 9223372036854775808)
    (hhi : h < 9223372036854775808) :
    (mainState w h).snakeHead =
      [⟨((w / 2 : Nat) : Int), ((h / 2 : Nat) : Int) - 1⟩,
       ⟨((w / 2 : Nat) : Int), ((h / 2 : Nat) : Int)⟩,
       ⟨((w / 2 : Nat) : Int), ((h / 2 : Nat) : Int) + 1⟩] := by
  have e1 : uintToInt (w / 2) = ((w / 2 : Nat) : Int) := uintToInt_eq_cast _ (by omega)
  have e2 : uintToInt (uintSub (h / 2) 1) = ((h / 2 : Nat) : Int) - 1 := by
    have e : uintSub (h / 2) 1 = h / 2 - 1 := by
      unfold uintSub
      omega
    rw [e, uintToInt_eq_cast _ (by omega)]
    omega
  have e3 : uintToInt (h / 2) = ((h / 2 : Nat) : Int) := uintToInt_eq_cast _ (by omega)
  have e4 : uintToInt (wrapUint (h / 2 + 1)) = ((h / 2 : Nat) : Int) + 1 := by
    rw [wrapUint_eq_self _ (by omega), uintToInt_eq_cast _ (by omega)]
    omega
  rw [mainState_snakeHead, e1, e2, e3, e4]

/-- Every cell `isValid` accepts exists after the first `newFood` of `main` and stores
`fieldEmpty` or `fieldFood`. -/
lemma firstFood_cell (w h : Nat) (draws : List point2d) (gs0 : gameState)
    (draws0 : List point2d) (h0 : newFood (mainState w h) draws = .ok (gs0, draws0))
    (q : point2d) (hv : q.isValid gs0 = true) :
    ∃ c, boardGet gs0.board q = some c ∧ (c = fieldEmpty ∨ c = fieldFood) := by
  obtain ⟨p, _, _, _, hbs, _⟩ := newFood_ok _ _ _ _ h0
  obtain ⟨hw, hh, _⟩ := newFood_frame _ _ _ _ h0
  have hg := newFood_gridCells _ _ _ _ (gridCells_of_empty _ (mainState_board_empty w h)) h0
  by_cases hq : q = p
  · rw [hq, boardGet_boardSet_same _ _ _ _ hbs]
    exact ⟨fieldFood, rfl, Or.inr rfl⟩
  · rw [isValid_congr gs0 (mainState w h) hw hh] at hv
    obtain ⟨c, hc⟩ := boardGet_of_shape (mainState w h) q (mainState_shape w h) hv
    rw [boardGet_boardSet_ne _ _ _ _ _ hbs hq, hc]
    refine ⟨c, rfl, ?_⟩
    rw [← boardGet_boardSet_ne _ _ _ _ _ hbs hq] at hc
    exact gridCells_boardGet _ _ _ hg hc


lemma tailMoved_four (a b c d : point2d) :
    tailMoved [a, b, c, d] 3 = [a, b, c] ∧ tailMoved [a, b, c, d] (wrapUint (3 + 1)) = [a, b, c, d] := by
  have e : wrapUint (3 + 1) = 4 := wrapUint_eq_self _ (by omega)
  rw [e]
  unfold tailMoved
  constructor
  · rw [if_pos (by simp)]
    rfl
  · rw [if_neg (by simp)]

/-- C13. For dimensions `w` and `h` of at least 5 (values of `int`, as `menu` reads them),
the chain `main` builds is the three nodes `(w/2, h/2 - 1)`, `(w/2, h/2)`, `(w/2, h/2 + 1)`,
head first and each node one cell above the next, all in bounds and pairwise distinct, and
the direction is the zero value `userActionUp`. After the first `newFood`, whatever it
drew, the prospective head of the first round is `(w/2, h/2 - 2)`, which no node holds and
where the lookup does not answer `fieldSnake`; every returning first `newRound` leaves
`cancelled` false and puts that cell in front of the chain; and the round returns as soon
as the draws contain a cell that is free, after cells that are not. -/
theorem initial_snake (w h : Nat) (hw : 5 ≤ w) (hh : 5 ≤ h)
    (hwi : w < 9223372036854775808) (hhi : h < 9223372036854775808) :
    (mainState w h).snakeHead =
      [⟨((w / 2 : Nat) : Int), ((h / 2 : Nat) : Int) - 1⟩,
       ⟨((w / 2 : Nat) : Int), ((h / 2 : Nat) : Int)⟩,
       ⟨((w / 2 : Nat) : Int), ((h / 2 : Nat) : Int) + 1⟩] ∧
    (mainState w h).snakeHead.length = 3 ∧
    (∀ p ∈ (mainState w h).snakeHead,
      inBounds (mainState w h) p ∧ p.isValid (mainState w h) = true) ∧
    (mainState w h).snakeHead.Nodup ∧
    (mainState w h).userAction = userActionUp ∧
    (mainState w h).cancelled = false ∧
    ∀ (draws : List point2d) (gs0 : gameState) (draws0 : List point2d),
      newFood (mainState w h) draws = .ok (gs0, draws0) →
      movedHead gs0 ⟨((w / 2 : Nat) : Int), ((h / 2 : Nat) : Int) - 1⟩
        = ⟨((w / 2 : Nat) : Int), ((h / 2 : Nat) : Int) - 2⟩ ∧
      (⟨((w / 2 : Nat) : Int), ((h / 2 : Nat) : Int) - 2⟩ : point2d) ∉ gs0.snakeHead ∧
      (∃ c, getField gs0 ⟨((w / 2 : Nat) : Int), ((h / 2 : Nat) : Int) - 2⟩ = .ok (c, true) ∧
        c ≠ fieldSnake) ∧
      (∀ (draws1 : List point2d) (gs1 : gameState) (draws2 : List point2d),
        newRound gs0 draws1 = .ok (gs1, draws2) →
        gs1.cancelled = false ∧
        (gs1.snakeHead =
            [⟨((w / 2 : Nat) : Int), ((h / 2 : Nat) : Int) - 2⟩,
             ⟨((w / 2 : Nat) : Int), ((h / 2 : Nat) : Int) - 1⟩,
             ⟨((w / 2 : Nat) : Int), ((h / 2 : Nat) : Int)⟩] ∨
          gs1.snakeHead =
            [⟨((w / 2 : Nat) : Int), ((h / 2 : Nat) : Int) - 2⟩,
             ⟨((w / 2 : Nat) : Int), ((h / 2 : Nat) : Int) - 1⟩,
             ⟨((w / 2 : Nat) : Int), ((h / 2 : Nat) : Int)⟩,
             ⟨((w / 2 : Nat) : Int), ((h / 2 : Nat) : Int) + 1⟩])) ∧
      (∀ (pre : List point2d) (p : point2d) (rest : List point2d),
        (∀ q ∈ pre, q.isValid gs0 = true ∧
          q ∈ (⟨((w / 2 : Nat) : Int), ((h / 2 : Nat) : Int) - 2⟩ : point2d) :: gs0.snakeHead) →
        p.isValid gs0 = true →
        p ∉ (⟨((w / 2 : Nat) : Int), ((h / 2 : Nat) : Int) - 2⟩ : point2d) :: gs0.snakeHead →
        ∃ gs1 draws2, newRound gs0 (pre ++ p :: rest) = .ok (gs1, draws2)) := by
  have hchain := mainState_start w h hh hwi hhi
  have hbw : (mainState w h).boardWidth = w := rfl
  have hbh : (mainState w h).boardHeight = h := rfl
  have hfit : dimsFit (mainState w h) := ⟨hwi, hhi⟩
  have hin : ∀ p ∈ (mainState w h).snakeHead, inBounds (mainState w h) p := by
    intro p hp
    rw [hchain] at hp
    simp only [List.mem_cons, List.mem_singleton, List.not_mem_nil, or_false] at hp
    unfold inBounds
    rw [hbw, hbh]
    rcases hp with rfl | rfl | rfl <;> dsimp only <;> omega
  refine ⟨hchain, rfl, fun p hp => ⟨hin p hp, (isValid_iff_inBounds _ hfit p).2 (hin p hp)⟩,
    mainState_nodup w h, rfl, rfl, ?_⟩
  intro draws gs0 draws0 h0
  obtain ⟨fw, fh, _, _, fd, fs, fa, fc⟩ := newFood_frame _ _ _ _ h0
  have ha : gs0.userAction = userActionUp := fa
  have hs0 : gs0.snakeHead =
      [⟨((w / 2 : Nat) : Int), ((h / 2 : Nat) : Int) - 1⟩,
       ⟨((w / 2 : Nat) : Int), ((h / 2 : Nat) : Int)⟩,
       ⟨((w / 2 : Nat) : Int), ((h / 2 : Nat) : Int) + 1⟩] := fs.trans hchain
  have hd0 : gs0.desiredSnakeLen = 3 := fd
  have hc0 : gs0.cancelled = false := fc
  have hmv : movedHead gs0 ⟨((w / 2 : Nat) : Int), ((h / 2 : Nat) : Int) - 1⟩
      = ⟨((w / 2 : Nat) : Int), ((h / 2 : Nat) : Int) - 2⟩ := by
    rw [movedHead_up gs0 _ ha]
    dsimp only
    rw [wrapInt_eq_self _ (by omega) (by omega), if_neg (by omega)]
    have e : ((h / 2 : Nat) : Int) - 1 - 1 = ((h / 2 : Nat) : Int) - 2 := by omega
    rw [e]
  have hvh : (⟨((w / 2 : Nat) : Int), ((h / 2 : Nat) : Int) - 1⟩ : point2d).isValid gs0 = true := by
    rw [isValid_congr gs0 (mainState w h) fw fh]
    exact (isValid_iff_inBounds _ hfit _).2 (hin _ (by rw [hchain]; exact List.mem_cons_self _ _))
  have hvn : (movedHead gs0 ⟨((w / 2 : Nat) : Int), ((h / 2 : Nat) : Int) - 1⟩).isValid gs0 = true :=
    movedHead_isValid gs0 _ hvh
  have hfree : movedHead gs0 ⟨((w / 2 : Nat) : Int), ((h / 2 : Nat) : Int) - 1⟩ ∉ gs0.snakeHead := by
    rw [hmv, hs0]
    simp only [List.mem_cons, List.mem_singleton, List.not_mem_nil, or_false, point2d.mk.injEq]
    omega
  obtain ⟨c, hcell, hgrid⟩ := firstFood_cell w h draws gs0 draws0 h0 _ hvn
  have hocc : c ≠ fieldSnake := by
    rcases hgrid with e | e <;> rw [e] <;> decide
  have hlook : getField gs0 (movedHead gs0 ⟨((w / 2 : Nat) : Int), ((h / 2 : Nat) : Int) - 1⟩)
      = .ok (c, true) := by
    rw [getField_free gs0 _ hvn hfree, hcell]
  refine ⟨hmv, ?_, ⟨c, ?_, hocc⟩, ?_, ?_⟩
  · rw [← hmv]
    exact hfree
  · rw [← hmv]
    exact hlook
  · intro draws1 gs1 draws2 hr
    obtain ⟨k1, k2, k3⟩ := newRound_move gs0 draws1 gs1 draws2 _ _ hs0 hvn c hlook hocc hr
    refine ⟨k1.trans hc0, ?_⟩
    rw [hmv, hs0] at k2
    rw [hd0] at k3
    rcases k3 with k3 | k3
    · left
      rw [k2, k3]
      exact (tailMoved_four _ _ _ _).1
    · right
      rw [k2, k3]
      exact (tailMoved_four _ _ _ _).2
  · intro pre p rest hpre hpv hpm
    rw [← hmv] at hpre hpm
    rcases hgrid with e | e
    · rw [e] at hcell
      exact ⟨_, _, newRound_free_cell gs0 _ _ _ hs0 hvn hfree fieldEmpty hcell (by decide)
        (by decide)⟩
    · rw [e] at hcell
      obtain ⟨cp, hcp, hgp⟩ := firstFood_cell w h draws gs0 draws0 h0 p hpv
      have hne : cp ≠ fieldSnake := by
        rcases hgp with e2 | e2 <;> rw [e2] <;> decide
      obtain ⟨gs1, hgs1⟩ := newRound_eats_returns gs0 _ _ hs0 hvh hfree hcell pre p rest hpre hpv
        hpm cp hcp hne
      exact ⟨gs1, rest, hgs1⟩


/-- C13 on the 10 by 10 board, with the first food at `(5,2)`: the chain is `(5,4)`, `(5,5)`,
`(5,6)` and the first round upwards goes to `(5,3)` without setting `cancelled`. -/
theorem initial_snake_witness :
    (mainState 10 10).snakeHead = [⟨5, 4⟩, ⟨5, 5⟩, ⟨5, 6⟩] ∧
    movedHead (foodAbove 2) ⟨5, 4⟩ = ⟨5, 3⟩ ∧
    ∀ (draws1 : List point2d) (gs1 : gameState) (draws2 : List point2d),
      newRound (foodAbove 2) draws1 = .ok (gs1, draws2) →
      gs1.cancelled = false ∧
      (gs1.snakeHead = [⟨5, 3⟩, ⟨5, 4⟩, ⟨5, 5⟩] ∨
        gs1.snakeHead = [⟨5, 3⟩, ⟨5, 4⟩, ⟨5, 5⟩, ⟨5, 6⟩]) :=
  have t := initial_snake 10 10 (by decide) (by decide) (by decide) (by decide)
  have u := t.2.2.2.2.2.2 [⟨5, 2⟩] (foodAbove 2) [] (by with_unfolding_all decide)
  ⟨t.1, u.1, u.2.2.2.1⟩

/-! ## C19: score and target length -/

/-- A returning round leaves `score` and `desiredSnakeLen` alone or increments both. -/
lemma newRound_counters (gs : gameState) (draws : List point2d) (gs1 : gameState)
    (draws1 : List point2d) (h : newRound gs draws = .ok (gs1, draws1)) :
    (gs1.score = gs.score ∧ gs1.desiredSnakeLen = gs.desiredSnakeLen) ∨
    (gs1.score = wrapUint (gs.score + 1) ∧
      gs1.desiredSnakeLen = wrapUint (gs.desiredSnakeLen + 1)) := by
  obtain ⟨pos, nextField, _, _, _, _, _, hc⟩ := newRound_fields gs draws gs1 draws1 h
  rcases hc with ⟨_, hd, hsc, _⟩ | ⟨_, _, _, hd, hsc, _⟩ | ⟨_, _, _, hd, hsc, _⟩
  · exact Or.inl ⟨hsc, hd⟩
  · exact Or.inr ⟨hsc, hd⟩
  · exact Or.inl ⟨hsc, hd⟩

/-- On a run of `main` a chain that fits the `uint` counter is as long as the target,
and the target is the score plus the three nodes of the start. -/
lemma reach_counters (w h : Nat) (draws : List point2d) (gs0 : gameState)
    (draws0 : List point2d) (gs : gameState)
    (h0 : newFood (mainState w h) draws = .ok (gs0, draws0)) (hr : Reach gs0 gs) :
    gs.snakeHead.length + 1 < 18446744073709551616 →
    gs.snakeHead.length = gs.desiredSnakeLen ∧ gs.desiredSnakeLen = gs.score + 3 := by
  induction hr with
  | start =>
    intro _
    obtain ⟨_, _, _, hsc, hd, hs, _, _⟩ := newFood_frame _ _ _ _ h0
    rw [hs, hd, hsc]
    exact ⟨rfl, rfl⟩
  | listen gs events _ ih =>
    intro hb
    obtain ⟨_, _, _, _, hsc, hd, hs⟩ := keyPressListener_sameGame gs events
    rw [hs, hd, hsc]
    rw [hs] at hb
    exact ih hb
  | pending gs ev _ ih =>
    intro hb
    obtain ⟨_, _, _, _, hsc, hd, hs⟩ := onEvent_sameGame gs ev
    rw [hs, hd, hsc]
    rw [hs] at hb
    exact ih hb
  | tick gs gs1 d d1 _ hstep ih =>
    intro hb
    have hmono := newRound_length_mono gs d gs1 d1 hstep
    obtain ⟨hlen, hsum⟩ := ih (by omega)
    have hlen1 := newRound_length_step gs d gs1 d1 hlen (by omega) hstep
    refine ⟨hlen1, ?_⟩
    rcases newRound_counters gs d gs1 d1 hstep with ⟨e1, e2⟩ | ⟨e1, e2⟩
    · rw [e1, e2]
      exact hsum
    · rw [e1, e2, wrapUint_eq_self _ (by omega), wrapUint_eq_self _ (by omega)]
      omega

/-- C19. A returning `newRound` leaves `score` and `desiredSnakeLen` as they were or
adds one to both as `uint` values; while neither counter overflows, neither decreases
and they change only together, by one. `main` starts from score 0 and target 3, so in
every state the running game reaches after the first `newFood`, through any key events,
directions and draws, before and after the flag is set, with a chain that fits the `uint`
counter of `count`, `desiredSnakeLen` is `score + 3` and at least 3. -/
theorem score_with_target :
    (∀ (gs : gameState) (draws : List point2d) (gs1 : gameState) (draws1 : List point2d),
      newRound gs draws = .ok (gs1, draws1) →
      ((gs1.score = gs.score ∧ gs1.desiredSnakeLen = gs.desiredSnakeLen) ∨
        (gs1.score = wrapUint (gs.score + 1) ∧
          gs1.desiredSnakeLen = wrapUint (gs.desiredSnakeLen + 1))) ∧
      (gs.score + 1 < 18446744073709551616 → gs.desiredSnakeLen + 1 < 18446744073709551616 →
        gs.score ≤ gs1.score ∧ gs.desiredSnakeLen ≤ gs1.desiredSnakeLen ∧
        ((gs1.score = gs.score ∧ gs1.desiredSnakeLen = gs.desiredSnakeLen) ∨
          (gs1.score = gs.score + 1 ∧ gs1.desiredSnakeLen = gs.desiredSnakeLen + 1)))) ∧
    (∀ (w h : Nat), (mainState w h).score = 0 ∧ (mainState w h).desiredSnakeLen = 3) ∧
    (∀ (w h : Nat) (draws : List point2d) (gs0 : gameState) (draws0 : List point2d)
      (gs : gameState),
      newFood (mainState w h) draws = .ok (gs0, draws0) →
      Reach gs0 gs →
      gs.snakeHead.length + 1 < 18446744073709551616 →
      gs.desiredSnakeLen = gs.score + 3 ∧ 3 ≤ gs.desiredSnakeLen) := by
  refine ⟨?_, fun w h => ⟨rfl, rfl⟩, ?_⟩
  · intro gs draws gs1 draws1 hstep
    have hc := newRound_counters gs draws gs1 draws1 hstep
    refine ⟨hc, fun hs hd => ?_⟩
    rcases hc with ⟨e1, e2⟩ | ⟨e1, e2⟩
    · exact ⟨by omega, by omega, Or.inl ⟨e1, e2⟩⟩
    · rw [wrapUint_eq_self _ hs] at e1
      rw [wrapUint_eq_self _ hd] at e2
      exact ⟨by omega, by omega, Or.inr ⟨e1, e2⟩⟩
  · intro w h draws gs0 draws0 gs h0 hr hb
    obtain ⟨_, hsum⟩ := reach_counters w h draws gs0 draws0 gs h0 hr hb
    exact ⟨hsum, by omega⟩

/-- C19 on a run of `main`: the food is drawn at `(5,3)`, the first round eats it, and
the state reached has score 1 and target 4. Also on the run
that collides, handles the key Left after the flag was set and plays one more round. -/
theorem score_with_target_witness :
    newFood (mainState 10 10) [⟨5, 3⟩] = .ok (foodAbove 1, []) ∧
    newRound (foodAbove 1) [⟨0, 0⟩] = .ok (hasEaten 1, []) ∧
    (foodAbove 1).score = 0 ∧ (foodAbove 1).desiredSnakeLen = 3 ∧
    (hasEaten 1).score = 1 ∧ (hasEaten 1).desiredSnakeLen = 4 ∧
    ((hasEaten 1).desiredSnakeLen = (hasEaten 1).score + 3 ∧ 3 ≤ (hasEaten 1).desiredSnakeLen) ∧
    roundAfterCancel.cancelled = true ∧
    (roundAfterCancel.desiredSnakeLen = roundAfterCancel.score + 3 ∧
      3 ≤ roundAfterCancel.desiredSnakeLen) :=
  ⟨by with_unfolding_all decide, by with_unfolding_all decide, rfl, rfl, rfl, rfl,
    score_with_target.2.2 10 10 [⟨5, 3⟩] (foodAbove 1) [] (hasEaten 1)
      (by with_unfolding_all decide)
      (Reach.tick (foodAbove 1) (hasEaten 1) [⟨0, 0⟩] [] Reach.start
        (by with_unfolding_all decide))
      (by decide),
    rfl,
    score_with_target.2.2 10 10 [⟨5, 3⟩] (foodAbove 1) [] roundAfterCancel
      (by with_unfolding_all decide) reach_roundAfterCancel (by decide)⟩

end Termsnake
